import Mathlib

/-!
Verification development for the forge-pack deployer generator.

The TypeScript sources are shallowly embedded: JavaScript strings are Lean
`String`s (a hex string is additionally handled through its character list
`String.data`), `Object.entries` iteration over a JSON object is modelled as a
list of key/value pairs in insertion order, a JavaScript `Map` is an
association list whose `set` replaces in place or appends, and a `Set` is a
list used only through membership.  Functions that read the filesystem
(`findArtifact` composed with `parseArtifact` inside the resolver) are
modelled as an explicit `lookup : String → ParsedArtifact` collaborator, and
the unbounded recursion of `resolveLibraries` is driven by an explicit fuel
counter, failing with an `outOfFuel` error when exhausted.
-/

-- ── Definitions ────────────────────────────────────────────────────────

/-- One `{ start, length }` record of `linkReferences` (byte units). -/

structure LinkReference where
  start : Nat
  length : Nat
deriving DecidableEq, Repr

/-- `linkReferences`: declaring file → library name → slot list, in JSON
insertion order. -/

abbrev LinkRefs := List (String × List (String × List LinkReference))

/-- One ABI parameter; `components` is present for tuple/struct types. -/

inductive AbiParam where
  | mk (name : String) (type : String) (internalType : Option String)
       (components : Option (List AbiParam))

def AbiParam.name : AbiParam → String
  | .mk n _ _ _ => n

def AbiParam.type : AbiParam → String
  | .mk _ t _ _ => t

def AbiParam.internalType : AbiParam → Option String
  | .mk _ _ it _ => it

def AbiParam.components : AbiParam → Option (List AbiParam)
  | .mk _ _ _ cs => cs

/-- One ABI entry. -/

structure AbiEntry where
  type : String
  name : Option String
  inputs : Option (List AbiParam)
  outputs : Option (List AbiParam)
  stateMutability : Option String

/-- The structured artifact produced by `parseArtifact`. -/

structure ParsedArtifact where
  contractName : String
  abi : List AbiEntry
  bytecode : String
  linkReferences : LinkRefs
  sourcePath : Option String
  solcVersion : Option String
  optimizerRuns : Option Nat
  viaIR : Option Bool
  evmVersion : Option String
  bytecodeHash : Option String

/-- A resolved library dependency (`ResolvedLibrary` in src/types.ts). -/

structure ResolvedLibrary where
  paramName : String
  file : String
  lib : String
  artifact : ParsedArtifact
  deps : List String

/-- Options of `generateDeployer`. -/

structure GenerateDeployerOptions where
  pragmaRange : Option String
  libraries : Option (List ResolvedLibrary)

/-- Error conditions of the generation pipeline. -/

inductive GenError where
  | missingBytecode (name : String)
  | circularDependency (key : String)
  | outOfFuel
deriving DecidableEq, Repr

/-- `Array.prototype.join(sep)`. -/

def strJoin (sep : String) : List String → String
  | [] => ""
  | x :: xs => xs.foldl (fun acc y => acc ++ sep ++ y) x

/-- The `` `${file}:${lib}` `` key used by the resolver and the segmenter. -/

def mkKey (file lib : String) : String := file ++ ":" ++ lib

/-- `makeParamName` (src/resolve.ts line 19):
`libName.charAt(0).toLowerCase() + libName.slice(1)`. -/

def makeParamName (libName : String) : String :=
  match libName.data with
  | [] => ""
  | c :: cs => ⟨Char.toLower c :: cs⟩

/-- `bytecodeHex.startsWith("0x") ? bytecodeHex.slice(2) : bytecodeHex`
(src/artifact.ts lines 38-39). -/

def strip0x (s : String) : String :=
  match s.data with
  | '0' :: 'x' :: rest => ⟨rest⟩
  | _ => s

/-- Specification-side lowercase normalization of a string (the spec's
"normalized to lowercase"); the source never performs it. -/

def toLowerString (s : String) : String := ⟨s.data.map Char.toLower⟩

/-- The `bytecode` object of a raw Forge artifact document. -/

structure RawBytecode where
  object : Option String
  linkReferences : Option LinkRefs

/-- The `metadata` object of a raw Forge artifact document. -/

structure RawMetadata where
  compilerVersion : Option String
  optimizerRuns : Option Nat
  viaIR : Option Bool
  evmVersion : Option String
  compilationTarget : Option (List (String × String))

/-- A raw artifact JSON document, after `JSON.parse`, restricted to the
fields `parseArtifact` reads. -/

structure RawArtifact where
  abi : Option (List AbiEntry)
  bytecode : Option RawBytecode
  metadata : Option RawMetadata

/-- `parseArtifact` (src/artifact.ts lines 31-67), with the document already
parsed from JSON. -/

def parseArtifact (raw : RawArtifact) (contractName : String) : ParsedArtifact :=
  { contractName := contractName
    abi := raw.abi.getD []
    bytecode := strip0x ((raw.bytecode.bind (·.object)).getD "")
    linkReferences := (raw.bytecode.bind (·.linkReferences)).getD []
    sourcePath := (raw.metadata.bind (·.compilationTarget)).bind (fun ts => (ts.map (·.1)).head?)
    solcVersion := raw.metadata.bind (·.compilerVersion)
    optimizerRuns := raw.metadata.bind (·.optimizerRuns)
    viaIR := raw.metadata.bind (·.viaIR)
    evmVersion := raw.metadata.bind (·.evmVersion)
    bytecodeHash := none }

/-- A bytecode segment: literal hex characters, or a library placeholder
carrying its parameter name. -/

inductive Segment where
  | hex (value : List Char)
  | lib (value : String)
deriving DecidableEq, Repr

/-- A deduplicated placeholder parameter. -/

structure LibParam where
  name : String
  file : String
  lib : String
deriving DecidableEq, Repr

/-- One flattened `{ start, length, file, lib }` placeholder record. -/

structure Placeholder where
  start : Nat
  length : Nat
  file : String
  lib : String
deriving DecidableEq, Repr

/-- The triple loop of `buildBytecodeSegments` flattening `linkReferences`
into placeholder records, in iteration order. -/

def flattenPlaceholders (lr : LinkRefs) : List Placeholder :=
  lr.foldl
    (fun acc fe =>
      fe.2.foldl
        (fun acc le =>
          acc ++ le.2.map (fun r => ⟨r.start, r.length, fe.1, le.1⟩))
        acc)
    []

/-- Ordering used by `placeholders.sort((a, b) => a.start - b.start)`. -/

def phLE (a b : Placeholder) : Prop := a.start ≤ b.start

instance : DecidableRel phLE := fun a b => Nat.decLe a.start b.start

instance : IsTotal Placeholder phLE := ⟨fun a b => Nat.le_total a.start b.start⟩

instance : IsTrans Placeholder phLE := ⟨fun _ _ _ h h' => Nat.le_trans h h'⟩

/-- `placeholders.sort((a, b) => a.start - b.start)`: JavaScript's sort is
stable, modelled by stable insertion sort on `start`. -/

def sortPlaceholders (ps : List Placeholder) : List Placeholder :=
  ps.insertionSort phLE

/-- One step of the `libMap`/`libParams` loop: record a placeholder unless
its `` `${file}:${lib}` `` key was already seen. -/

def segDedupStep (acc : List String × List LibParam) (p : Placeholder) :
    List String × List LibParam :=
  let key := mkKey p.file p.lib
  if key ∈ acc.1 then acc
  else (acc.1 ++ [key], acc.2 ++ [⟨makeParamName p.lib, p.file, p.lib⟩])

/-- The `libMap`/`libParams` loop: deduplicate placeholders by their
`` `${file}:${lib}` `` key, in first-encounter order. -/

def buildLibParams (ps : List Placeholder) : List LibParam :=
  (ps.foldl segDedupStep ([], [])).2

/-- `libMap.get(key)!`: the parameter name recorded for a key (the name of
the first placeholder carrying that key). -/

def libNameFor (lps : List LibParam) (key : String) : String :=
  match lps.find? (fun lp => mkKey lp.file lp.lib == key) with
  | some lp => lp.name
  | none => "undefined"

/-- The cursor walk of `buildBytecodeSegments` over sorted placeholders.
`bytecode.slice(a, b)` is `(bc.drop a).take (b - a)`. -/

def segLoop (bc : List Char) (lps : List LibParam) (cursor : Nat) :
    List Placeholder → List Segment
  | [] => if cursor < bc.length then [.hex (bc.drop cursor)] else []
  | p :: rest =>
    let hexStart := p.start * 2
    let hexEnd := (p.start + p.length) * 2
    (if cursor < hexStart then
      [Segment.hex ((bc.drop cursor).take (hexStart - cursor))]
     else []) ++
    (Segment.lib (libNameFor lps (mkKey p.file p.lib)) :: segLoop bc lps hexEnd rest)

/-- `buildBytecodeSegments` (src/codegen.ts lines 94-149). -/

def buildBytecodeSegments (bytecode : String) (linkReferences : LinkRefs) :
    List Segment × List LibParam :=
  let ps := sortPlaceholders (flattenPlaceholders linkReferences)
  if ps.isEmpty then ([.hex bytecode.data], [])
  else
    let lps := buildLibParams ps
    (segLoop bytecode.data lps 0 ps, lps)

/-- `collectLibIds` (src/resolve.ts lines 4-17): unique `(file, lib)` pairs
of a `linkReferences` mapping, deduplicated by the `` `${file}:${lib}` ``
string key, in encounter order. -/

def collectLibIds (linkRefs : LinkRefs) : List (String × String) :=
  (linkRefs.foldl
    (fun (acc : List String × List (String × String)) fe =>
      fe.2.foldl
        (fun acc le =>
          let key := mkKey fe.1 le.1
          if key ∈ acc.1 then acc
          else (acc.1 ++ [key], acc.2 ++ [(fe.1, le.1)]))
        acc)
    ([], [])).2

/-- The mutable state of one `resolveLibraries` call: the `resolved` map
(insertion-ordered association list on string keys) and the `visiting` set. -/

structure RState where
  resolved : List (String × ResolvedLibrary)
  visiting : List String

/-- The inner recursive `resolve(file, lib)` of `resolveLibraries`
(src/resolve.ts lines 32-61), with fuel driving the recursion.  The
dependency loop (`for (const dep of libIds) ...`) is the `foldlM`, which
threads the state and accumulates `deps.push(depResolved.paramName)`. -/

def resolveOne (lookup : String → ParsedArtifact) :
    Nat → RState → String → String → Except GenError (ResolvedLibrary × RState)
  | 0, _, _, _ => .error .outOfFuel
  | n + 1, st, file, lib =>
    let key := mkKey file lib
    match st.resolved.lookup key with
    | some entry => .ok (entry, st)
    | none =>
      if key ∈ st.visiting then .error (.circularDependency key)
      else
        let st₁ : RState := ⟨st.resolved, key :: st.visiting⟩
        let artifact := lookup lib
        let libIds := collectLibIds artifact.linkReferences
        (libIds.foldlM
          (fun (acc : List String × RState) (d : String × String) => do
            let (e, st') ← resolveOne lookup n acc.2 d.1 d.2
            pure (acc.1 ++ [e.paramName], st'))
          ([], st₁)).bind
        (fun r =>
          let deps := r.1
          let st₂ := r.2
          let entry : ResolvedLibrary :=
            ⟨makeParamName lib, file, lib, artifact, deps⟩
          .ok (entry, ⟨st₂.resolved ++ [(key, entry)], st₂.visiting.erase key⟩))

/-- The dependency loop of `resolveOne` as a standalone function (definitionally
the `foldlM` inside `resolveOne`), also used for the top-level
`for (const { file, lib } of topLevel) resolve(file, lib)` loop. -/

def resolveList (lookup : String → ParsedArtifact) (n : Nat)
    (acc : List String × RState) (ps : List (String × String)) :
    Except GenError (List String × RState) :=
  ps.foldlM
    (fun (acc : List String × RState) d => do
      let (e, st') ← resolveOne lookup n acc.2 d.1 d.2
      pure (acc.1 ++ [e.paramName], st'))
    acc

/-- `Map.prototype.set`: replace the first binding of the key in place, or
append a new binding. -/

def assocSet {α : Type} : List (String × α) → String → α → List (String × α)
  | [], k, v => [(k, v)]
  | (k', v') :: rest, k, v =>
    if k' = k then (k, v) :: rest else (k', v') :: assocSet rest k v

/-- The `nameCount` pass (src/resolve.ts lines 70-74). -/

def nameCountOf (libs : List ResolvedLibrary) : List (String × Nat) :=
  libs.foldl
    (fun m e => assocSet m e.paramName (((m.lookup e.paramName).getD 0) + 1))
    []

/-- The `collisions` set: names occurring more than once. -/

def collisionsOf (libs : List ResolvedLibrary) : List String :=
  ((nameCountOf libs).filter (fun kv => 1 < kv.2)).map (·.1)

/-- The renaming loop (src/resolve.ts lines 82-91): walk entries in order,
count occurrences of colliding names in `nameIndex`, and suffix the second,
third, … occurrence with its index. -/

def renameLoop (collisions : List String) (nameIndex : List (String × Nat)) :
    List ResolvedLibrary → List ResolvedLibrary
  | [] => []
  | e :: rest =>
    if e.paramName ∈ collisions then
      let idx := ((nameIndex.lookup e.paramName).getD 0) + 1
      let nameIndex' := assocSet nameIndex e.paramName idx
      let e' := if 1 < idx then { e with paramName := e.paramName ++ toString idx } else e
      e' :: renameLoop collisions nameIndex' rest
    else e :: renameLoop collisions nameIndex rest

/-- The disambiguation pass of `resolveLibraries` (src/resolve.ts lines
68-102): rename colliding `paramName`s, then rebuild every entry's `deps`
from the `keyToName` map.  `keyToName.get(key)!` on a missing key is
JavaScript `undefined`; it is modelled by the string `"undefined"` (the
invariants guarantee the key is always present). -/

def disambiguate (libs : List ResolvedLibrary) : List ResolvedLibrary :=
  let collisions := collisionsOf libs
  if collisions.isEmpty then libs
  else
    let renamed := renameLoop collisions [] libs
    let keyToName :=
      renamed.foldl (fun m e => assocSet m (mkKey e.file e.lib) e.paramName) []
    renamed.map (fun e =>
      let newDeps := (collectLibIds e.artifact.linkReferences).map
        (fun d => (keyToName.lookup (mkKey d.1 d.2)).getD "undefined")
      { e with deps := newDeps })

/-- `resolveLibraries` (src/resolve.ts lines 28-105); `findArtifact` composed
with `parseArtifact` is the `lookup` collaborator, assumed to yield an
artifact for every library name. -/

def resolveLibraries (lookup : String → ParsedArtifact) (fuel : Nat)
    (linkRefs : LinkRefs) : Except GenError (List ResolvedLibrary) :=
  (resolveList lookup fuel ([], ⟨[], []⟩) (collectLibIds linkRefs)).bind
    (fun r => .ok (disambiguate (r.2.resolved.map (·.2))))

/-- One emitted struct definition. -/

structure StructDef where
  name : String
  fields : List (String × String)
deriving DecidableEq, Repr

/-- `s.startsWith(pre)` on character lists. -/

def strStarts (s pre : String) : Bool := pre.data.isPrefixOf s.data

/-- The `^struct\s+` replacement of `extractStructName`: drop a leading
`struct` marker together with the whitespace run following it. -/

def stripStructMarker (s : String) : String :=
  match s.data with
  | 's' :: 't' :: 'r' :: 'u' :: 'c' :: 't' :: c :: rest =>
    if c.isWhitespace then ⟨(c :: rest).dropWhile Char.isWhitespace⟩ else s
  | _ => s

/-- One reversed-list step of the `(\[\d*\])+$` stripper: peel a trailing
`[digits]` group from the reversed character list. -/

def peelArrayGroup : List Char → Option (List Char)
  | ']' :: rest =>
    (match rest.dropWhile Char.isDigit with
     | '[' :: r => some r
     | _ => none)
  | _ => none

/-- Iterate `peelArrayGroup` to a fixpoint; the fuel `n` only needs to cover
the number of peeled groups, each of which removes at least one character. -/

def stripGroupsAux : Nat → List Char → List Char
  | 0, l => l
  | n + 1, l =>
    match peelArrayGroup l with
    | some r => stripGroupsAux n r
    | none => l

/-- `s.replace(/(\[\d*\])+$/, "")`: remove every trailing `[digits*]` array
group. -/

def stripArraySuffixes (s : String) : String :=
  ⟨(stripGroupsAux s.data.length s.data.reverse).reverse⟩

/-- The `lastIndexOf(".")` step of `extractStructName`: keep only the part
after the last dot (the whole string when there is no dot). -/

def afterLastDot (s : String) : String :=
  ⟨(s.data.reverse.takeWhile (fun c => c ≠ '.')).reverse⟩

/-- `extractStructName` (src/codegen.ts lines 11-17). -/

def extractStructName (internalType : String) : String :=
  afterLastDot (stripArraySuffixes (stripStructMarker internalType))

/-- `param.type.replace(/^tuple/, "")` — the array suffix of a tuple type. -/

def stripTupleMarker (s : String) : String :=
  match s.data with
  | 't' :: 'u' :: 'p' :: 'l' :: 'e' :: rest => ⟨rest⟩
  | _ => s

/-- `abiTypeToSolidity` (src/codegen.ts lines 47-60). -/

def abiTypeToSolidity (param : AbiParam) : String :=
  match param.internalType with
  | some it =>
    if strStarts it "contract " then "address"
    else if strStarts it "enum " then param.type
    else if strStarts it "struct " then
      extractStructName it ++ stripTupleMarker param.type
    else it
  | none => param.type

mutual

/-- The recursive `walk` of `collectStructDefs` (src/codegen.ts lines 22-39):
walk components first, then record the enclosing struct unless its name was
already seen.  `seen` is the insertion-ordered map of recorded structs. -/
def walkParam (seen : List StructDef) : AbiParam → List StructDef
  | .mk _ _ _ none => seen
  | .mk _ _ it0 (some comps) =>
    let it := it0.getD ""
    if strStarts it "struct " then
      let seen₁ := walkParams seen comps
      let name := extractStructName it
      if seen₁.any (fun s => s.name = name) then seen₁
      else
        seen₁ ++ [⟨name,
          comps.mapIdx (fun i comp =>
            (abiTypeToSolidity comp,
             if comp.name = "" then "field" ++ toString i else comp.name))⟩]
    else seen
termination_by p => sizeOf p

/-- Iterate `walkParam` over a parameter list. -/
def walkParams (seen : List StructDef) : List AbiParam → List StructDef
  | [] => seen
  | p :: ps => walkParams (walkParam seen p) ps
termination_by ps => sizeOf ps

end

/-- `collectStructDefs` (src/codegen.ts lines 19-43). -/

def collectStructDefs (params : List AbiParam) : List StructDef :=
  walkParams [] params

/-- `s.endsWith("[]")`. -/

def endsWithEmptyBrackets (s : String) : Bool :=
  match s.data.reverse with
  | ']' :: '[' :: _ => true
  | _ => false

/-- `/\[\d+\]$/.test(s)`: a trailing `[digits]` group with at least one
digit. -/

def fixedArrayTest (s : String) : Bool :=
  match s.data.reverse with
  | ']' :: rest =>
    (match rest.dropWhile Char.isDigit with
     | '[' :: _ => !(rest.takeWhile Char.isDigit).isEmpty
     | _ => false)
  | _ => false

/-- `needsMemoryLocation` (src/codegen.ts lines 70-74). -/

def needsMemoryLocation (solType : String) : Bool :=
  if solType == "string" || solType == "bytes" then true
  else if endsWithEmptyBrackets solType || fixedArrayTest solType then true
  else false

/-- `isStructType` (src/codegen.ts lines 76-79). -/

def isStructType (solType : String) (structNames : List String) : Bool :=
  structNames.contains (stripArraySuffixes solType)

/-- `formatParamWithStructs` (src/codegen.ts lines 62-68). -/

def formatParamWithStructs (param : AbiParam) (index : Nat)
    (structNames : List String) : String :=
  let solType := abiTypeToSolidity param
  let needsMemory := needsMemoryLocation solType || isStructType solType structNames
  let location := if needsMemory then " memory" else ""
  let name := if param.name = "" then "arg" ++ toString index else param.name
  solType ++ location ++ " " ++ name

/-- `renderInitcodeBody` (src/codegen.ts lines 153-159). -/

def renderInitcodeBody (bytecode : String) (segments : List Segment)
    (hasLinks : Bool) : String :=
  if !hasLinks then "        return hex\"" ++ bytecode ++ "\";"
  else
    let parts := strJoin ", " (segments.map (fun seg =>
      match seg with
      | .hex v => "hex\"" ++ String.mk v ++ "\""
      | .lib v => v))
    "        return abi.encodePacked(" ++ parts ++ ");"

/-- The lines of `renderDeployBody` (src/codegen.ts lines 163-195); the
rendered body is these lines joined with newlines. -/

def renderDeployBodyLines (inlineLibs : Bool)
    (resolvedLibs : List ResolvedLibrary) (ctorParams : List AbiParam)
    (initcodeCallArgs : String) : List String :=
  (if inlineLibs then
    resolvedLibs.map (fun rlib =>
      let libLibParams :=
        (buildBytecodeSegments rlib.artifact.bytecode rlib.artifact.linkReferences).2
      let callArgs := strJoin ", " (libLibParams.map (·.name))
      "        address " ++ rlib.paramName ++ " = DeployHelper.deployLibrary(_" ++
        rlib.paramName ++ "Initcode(" ++ callArgs ++ "));")
   else []) ++
  (if 0 < ctorParams.length then
    ["        bytes memory args = abi.encode(" ++
       strJoin ", " (ctorParams.mapIdx (fun i p =>
         if p.name = "" then "arg" ++ toString i else p.name)) ++ ");",
     "        bytes memory initcode_ = abi.encodePacked(initcode(" ++
       initcodeCallArgs ++ "), args);"]
   else
    ["        bytes memory initcode_ = initcode(" ++ initcodeCallArgs ++ ");"]) ++
  ["        deployed = DeployHelper.deploy(initcode_, salt);"]

/-- `renderDeployBody` joins its lines. -/

def renderDeployBody (inlineLibs : Bool) (resolvedLibs : List ResolvedLibrary)
    (ctorParams : List AbiParam) (initcodeCallArgs : String) : String :=
  strJoin "\n" (renderDeployBodyLines inlineLibs resolvedLibs ctorParams initcodeCallArgs)

/-- `abi.find((e) => e.type === "constructor")`. -/

def ctorEntryOf (abi : List AbiEntry) : Option AbiEntry :=
  abi.find? (fun e => e.type == "constructor")

/-- `ctorEntry?.inputs ?? []`. -/

def ctorParamsOf (parsed : ParsedArtifact) : List AbiParam :=
  ((ctorEntryOf parsed.abi).bind (·.inputs)).getD []

/-- `ctorEntry?.stateMutability === "payable"`. -/

def isPayableOf (parsed : ParsedArtifact) : Bool :=
  match ctorEntryOf parsed.abi with
  | some e => e.stateMutability == some "payable"
  | none => false

/-- Names of the collected struct definitions (the `structNames` set). -/

def structNamesOf (parsed : ParsedArtifact) : List String :=
  (collectStructDefs (ctorParamsOf parsed)).map (·.name)

/-- `mainSegments` of the root contract. -/

def mainSegmentsOf (parsed : ParsedArtifact) : List Segment :=
  (buildBytecodeSegments parsed.bytecode parsed.linkReferences).1

/-- `mainLibParams` of the root contract. -/

def mainLibParamsOf (parsed : ParsedArtifact) : List LibParam :=
  (buildBytecodeSegments parsed.bytecode parsed.linkReferences).2

/-- `hasLinks = mainLibParams.length > 0`. -/

def hasLinksOf (parsed : ParsedArtifact) : Bool :=
  decide (0 < (mainLibParamsOf parsed).length)

/-- `inlineLibs = hasLinks && resolvedLibs.length > 0`. -/

def inlineLibsOf (parsed : ParsedArtifact)
    (resolvedLibs : List ResolvedLibrary) : Bool :=
  hasLinksOf parsed && decide (0 < resolvedLibs.length)

/-- The `initcode()` parameter list (src/codegen.ts line 254): one
`address` parameter per distinct placeholder whenever any placeholder
exists. -/

def initcodeParamsList (parsed : ParsedArtifact) : List String :=
  if hasLinksOf parsed then
    (mainLibParamsOf parsed).map (fun lp => "address " ++ lp.name)
  else []

/-- The constructor-argument part of the `deploy()` parameter list
(src/codegen.ts lines 276-279). -/

def deployCtorParams (parsed : ParsedArtifact) : List String :=
  (ctorParamsOf parsed).mapIdx
    (fun i p => formatParamWithStructs p i (structNamesOf parsed))

/-- The library-address part of the `deploy()` parameter list
(src/codegen.ts lines 281-285): present only on the legacy path, when
placeholders exist and no resolved libraries were supplied. -/

def deployLibAddrParams (parsed : ParsedArtifact)
    (resolvedLibs : List ResolvedLibrary) : List String :=
  if hasLinksOf parsed && !(inlineLibsOf parsed resolvedLibs) then
    (mainLibParamsOf parsed).map (fun lp => "address " ++ lp.name)
  else []

/-- The full `deployParams` array. -/

def deployParamsOf (parsed : ParsedArtifact)
    (resolvedLibs : List ResolvedLibrary) : List String :=
  deployCtorParams parsed ++ deployLibAddrParams parsed resolvedLibs

/-- `deployParamStr` (src/codegen.ts line 287): the rendered `deploy()`
signature parameters, always ending in `bytes32 salt`. -/

def deployParamStr (parsed : ParsedArtifact)
    (resolvedLibs : List ResolvedLibrary) : String :=
  let dp := deployParamsOf parsed resolvedLibs
  if 0 < dp.length then strJoin ", " dp ++ ", bytes32 salt" else "bytes32 salt"

/-- `initcodeCallArgs` (src/codegen.ts line 289). -/

def initcodeCallArgsOf (parsed : ParsedArtifact) : String :=
  if hasLinksOf parsed then
    strJoin ", " ((mainLibParamsOf parsed).map (·.name))
  else ""

/-- Render a boolean the way a JavaScript template literal does. -/

def boolStr : Bool → String
  | true => "true"
  | false => "false"

/-- The `metaLines` array (src/codegen.ts lines 226-232). -/

def metaLinesOf (parsed : ParsedArtifact) : List String :=
  (match parsed.sourcePath with
   | some sp => ["@notice Source Contract: " ++ sp]
   | none => []) ++
  (match parsed.solcVersion with
   | some v => ["- solc: " ++ v]
   | none => []) ++
  (match parsed.optimizerRuns with
   | some r => ["- optimizer_runs: " ++ toString r]
   | none => []) ++
  ["- viaIR: " ++ boolStr (parsed.viaIR.getD false)] ++
  (match parsed.evmVersion with
   | some v => ["- evm_version: " ++ v]
   | none => []) ++
  ["- bytecodeHash: " ++ (parsed.bytecodeHash.getD "ipfs")]

/-- The `metaBlock` comment (src/codegen.ts lines 234-243). -/

def metaBlockOf (parsed : ParsedArtifact) : String :=
  let ml := metaLinesOf parsed
  if 0 < ml.length then
    strJoin "\n"
      (["    /**", "     * @dev autogenerated by forge-pack", "     *"] ++
        ml.map (fun l => "     * " ++ l) ++ ["     */"]) ++ "\n"
  else ""

/-- The `structBlock` (src/codegen.ts lines 246-251). -/

def structBlockOf (parsed : ParsedArtifact) : String :=
  strJoin "\n\n" ((collectStructDefs (ctorParamsOf parsed)).map (fun s =>
    let fields := strJoin "\n" (s.fields.map (fun f =>
      "        " ++ f.1 ++ " " ++ f.2 ++ ";"))
    "    struct " ++ s.name ++ " \x7b\n" ++ fields ++ "\n    \x7d"))

/-- The private per-library initcode functions (src/codegen.ts lines
259-273). -/

def libInitcodeFnsOf (parsed : ParsedArtifact)
    (resolvedLibs : List ResolvedLibrary) : List String :=
  if inlineLibsOf parsed resolvedLibs then
    resolvedLibs.map (fun rlib =>
      let pr := buildBytecodeSegments rlib.artifact.bytecode rlib.artifact.linkReferences
      let libHasLinks := decide (0 < pr.2.length)
      let fnParams :=
        if libHasLinks then strJoin ", " (pr.2.map (fun lp => "address " ++ lp.name))
        else ""
      let fnBody := renderInitcodeBody rlib.artifact.bytecode pr.1 libHasLinks
      "    function _" ++ rlib.paramName ++ "Initcode(" ++ fnParams ++
        ") private pure returns (bytes memory) \x7b\n" ++ fnBody ++ "\n    \x7d")
  else []

/-- `generateDeployer` (src/codegen.ts lines 199-322); the string overload of
`pragmaOrOpts` is subsumed by an options value with `libraries` absent. -/

def generateDeployer (parsed : ParsedArtifact)
    (opts : GenerateDeployerOptions) : String :=
  let prag := opts.pragmaRange.getD ">=0.8.0"
  let resolvedLibs := opts.libraries.getD []
  let libName := parsed.contractName ++ "Deployer"
  let payableModifier := if isPayableOf parsed then " payable" else ""
  let initcodeParams := strJoin ", " (initcodeParamsList parsed)
  let initcodeBody :=
    renderInitcodeBody parsed.bytecode (mainSegmentsOf parsed) (hasLinksOf parsed)
  let deployBody :=
    renderDeployBody (inlineLibsOf parsed resolvedLibs) resolvedLibs
      (ctorParamsOf parsed) (initcodeCallArgsOf parsed)
  let structBlock := structBlockOf parsed
  let structSection := if structBlock ≠ "" then "\n" ++ structBlock ++ "\n" else ""
  let libFns := libInitcodeFnsOf parsed resolvedLibs
  let libInitcodeSection :=
    if 0 < libFns.length then "\n" ++ strJoin "\n\n" libFns ++ "\n" else ""
  "// SPDX-License-Identifier: MIT\npragma solidity " ++ prag ++ ";\n\n" ++
    "import \x7bDeployHelper\x7d from \"./utils/DeployHelper.sol\";\n\n" ++
    "library " ++ libName ++ " \x7b\n" ++
    metaBlockOf parsed ++ structSection ++ "\n" ++
    "    function deploy(" ++ deployParamStr parsed resolvedLibs ++ ") internal" ++
    payableModifier ++ " returns (address deployed) \x7b\n" ++
    deployBody ++ "\n    \x7d\n\n" ++
    "    function initcode(" ++ initcodeParams ++
    ") internal pure returns (bytes memory) \x7b\n" ++
    initcodeBody ++ "\n    \x7d\n" ++
    libInitcodeSection ++ "\x7d\n"

/-- One iteration of the CLI batch loop: refuse artifacts without bytecode
(`MissingBytecode`), otherwise resolve libraries when `linkReferences` is
non-empty and generate the deployer source. -/

def processContract (lookup : String → ParsedArtifact) (fuel : Nat)
    (prag : String) (parsed : ParsedArtifact) : Except GenError String :=
  if parsed.bytecode = "" then .error (.missingBytecode parsed.contractName)
  else if 0 < parsed.linkReferences.length then
    (resolveLibraries lookup fuel parsed.linkReferences).bind
      (fun libs => .ok (generateDeployer parsed ⟨some prag, some libs⟩))
  else .ok (generateDeployer parsed ⟨some prag, none⟩)

/-- Two link slots have non-overlapping byte ranges. -/

def SlotsDisjoint (p q : Placeholder) : Prop :=
  p.start + p.length ≤ q.start ∨ q.start + q.length ≤ p.start

/-- Concatenate segments, substituting the placeholder segments in order by
the given hex character strings (`subs`). -/

def substSegments : List Segment → List (List Char) → List Char
  | [], _ => []
  | .hex v :: rest, subs => v ++ substSegments rest subs
  | .lib _ :: rest, [] => substSegments rest []
  | .lib _ :: rest, s :: subs => s ++ substSegments rest subs

/-- The bytecode with the given slots' hex ranges replaced by the paired
values, one slot at a time (byte offsets count two hex characters). -/

def replaceSlots (bc : List Char) : List (Placeholder × List Char) → List Char
  | [] => bc
  | (p, v) :: rest =>
    replaceSlots (bc.take (2 * p.start) ++ v ++ bc.drop (2 * (p.start + p.length))) rest

/-- Splice the substitution values into the bytecode starting at a hex
cursor, per sorted slot. -/

def spliceFrom (bc : List Char) (cursor : Nat) :
    List (Placeholder × List Char) → List Char
  | [] => bc.drop cursor
  | (p, v) :: rest =>
    (bc.drop cursor).take (2 * p.start - cursor) ++ v ++
      spliceFrom bc (2 * (p.start + p.length)) rest

/-- The sorted slot list is chained: each slot starts at or after the
cursor, ends within the `n` hex characters, and the next slot starts at or
after its end. -/

def ChainedFrom (n : Nat) : Nat → List Placeholder → Prop
  | cursor, [] => cursor ≤ n
  | cursor, p :: rest =>
    cursor ≤ 2 * p.start ∧ 2 * (p.start + p.length) ≤ n ∧
      ChainedFrom n (2 * (p.start + p.length)) rest

/-- The placeholder names of a segment sequence, in order. -/

def libValues (segs : List Segment) : List String :=
  segs.filterMap (fun s =>
    match s with
    | .lib v => some v
    | .hex _ => none)

/-- One step of the specification-side deduplication keyed by the
`(declaringFile, libraryName)` pair. -/

def pairDedupStep (acc : List (String × String) × List LibParam)
    (p : Placeholder) : List (String × String) × List LibParam :=
  if (p.file, p.lib) ∈ acc.1 then acc
  else (acc.1 ++ [(p.file, p.lib)], acc.2 ++ [⟨makeParamName p.lib, p.file, p.lib⟩])

/-- Specification-side deduplication of placeholders keyed by the
`(declaringFile, libraryName)` pair (not by the `file:lib` string), in
first-encounter order. -/

def dedupByPair (ps : List Placeholder) : List LibParam :=
  (ps.foldl pairDedupStep ([], [])).2

/-- Specification-side reading of "an array type (dynamic or fixed-size)":
the rendered type ends in `[]` or in `[digits]`. -/

def IsArraySuffixed (s : String) : Prop :=
  (∃ base : String, s = base ++ "[]") ∨
  (∃ (base : String) (ds : List Char), ds ≠ [] ∧ (∀ c ∈ ds, c.isDigit) ∧
    s.data = base.data ++ '[' :: ds ++ [']'])

/-- Specification-side reading of the reference-passing rule of the claim:
the rendered type is `string` or `bytes`, an array type, or a recorded
struct name after stripping trailing array suffixes. -/

def SpecRefPassing (s : String) (structNames : List String) : Prop :=
  s = "string" ∨ s = "bytes" ∨ IsArraySuffixed s ∨ stripArraySuffixes s ∈ structNames

/-- Every entry's dependency names refer to entries appearing strictly
earlier in the sequence (`done` accumulates the names of entries already
passed). -/

def TopoFrom (done : List String) : List ResolvedLibrary → Prop
  | [] => True
  | e :: rest => (∀ nm ∈ e.deps, nm ∈ done) ∧ TopoFrom (done ++ [e.paramName]) rest

/-- Every entry's linked `(file, lib)` pairs have keys recorded strictly
earlier (`ks` accumulates the `file:lib` keys of entries already passed). -/

def KeyTopoFrom (ks : List String) : List ResolvedLibrary → Prop
  | [] => True
  | e :: rest =>
    (∀ d ∈ collectLibIds e.artifact.linkReferences, mkKey d.1 d.2 ∈ ks) ∧
      KeyTopoFrom (ks ++ [mkKey e.file e.lib]) rest

/-- A leaf artifact with bytecode `60` and no link references. -/

def leafArt (nm : String) : ParsedArtifact :=
  ⟨nm, [], "60", [], none, none, none, none, none, none⟩

/-- `LibA`, linking `LibB` (end-to-end scenario C). -/

def artLibA : ParsedArtifact :=
  ⟨"LibA", [], "6001", [("fB", [("LibB", [⟨0, 20⟩])])], none, none, none, none, none, none⟩

/-- Artifact lookup for the `LibA → LibB` scenario. -/

def lkChain : String → ParsedArtifact :=
  fun l => if l = "LibA" then artLibA else leafArt l

/-- Root link references naming `LibA`. -/

def rfChain : LinkRefs := [("fA", [("LibA", [⟨0, 20⟩])])]

/-- Library `c` declared in file `a:b`; its artifact links library `b:c`
declared in file `a`.  The two identities are distinct but share the string
key `"a:b:c"`. -/

def artColon : ParsedArtifact :=
  ⟨"c", [], "6001", [("a", [("b:c", [⟨0, 20⟩])])], none, none, none, none, none, none⟩

/-- Artifact lookup for the colon-key scenario. -/

def lkColon : String → ParsedArtifact :=
  fun l => if l = "c" then artColon else leafArt l

/-- Root link references naming library `c` of file `a:b`. -/

def rfColon : LinkRefs := [("a:b", [("c", [⟨0, 20⟩])])]

/-- Three leaf libraries whose decapitalized names are `foo`, `foo`,
`foo2`: the disambiguation pass renames the second `foo` to `foo2`,
colliding with the third entry. -/

def rfFoo : LinkRefs :=
  [("f1", [("Foo", [⟨0, 20⟩])]), ("f2", [("Foo", [⟨20, 20⟩])]),
   ("f3", [("Foo2", [⟨40, 20⟩])])]

/-- Artifact lookup for the `Foo`/`Foo`/`Foo2` scenario. -/

def lkFoo : String → ParsedArtifact := fun l => leafArt l

/-- A root contract with one `MathLib` slot at byte offset 1, length 1. -/

def artLinked : ParsedArtifact :=
  ⟨"Main", [], "00112233", [("f", [("MathLib", [⟨1, 1⟩])])], none, none, none, none, none, none⟩

/-- The resolved `MathLib` entry covering `artLinked`'s only placeholder. -/

def rlMathLib : ResolvedLibrary := ⟨"mathLib", "f", "MathLib", leafArt "MathLib", []⟩

/-- An artifact with empty bytecode (interface / abstract contract). -/

def artNoBytecode : ParsedArtifact :=
  ⟨"IFace", [], "", [], none, none, none, none, none, none⟩

/-- A raw artifact document whose bytecode field is `0xAB` (uppercase hex). -/

def rawUpper : RawArtifact := ⟨none, some ⟨some "0xAB", none⟩, none⟩

/-- Link references whose `file:lib` keys collide: `("a:b", "c")` and
`("a", "b:c")` both have key `"a:b:c"`. -/

def lrColonSeg : LinkRefs :=
  [("a:b", [("c", [⟨0, 1⟩])]), ("a", [("b:c", [⟨1, 1⟩])])]

/-- End-to-end scenario B: `MathLib` referenced at two byte offsets. -/

def lrScenB : LinkRefs :=
  [("src/MathLib.sol", [("MathLib", [⟨1, 2⟩, ⟨5, 2⟩])])]

/-- Link references with a zero-length slot at the same offset as a
one-byte slot; the two byte ranges `[0, 1)` and `[0, 0)` do not overlap
(the second is empty) and lie within the two-byte bytecode. -/

def lrZeroLen : LinkRefs := [("f", [("A", [⟨0, 1⟩]), ("B", [⟨0, 0⟩])])]

/-- The key of an entry derived from its own fields. -/

def mkEntryKey (e : ResolvedLibrary) : String := mkKey e.file e.lib

/-- Invariant of the resolver state: association keys are distinct and
derived from their entry's fields, every entry's artifact is its library's
lookup result, its name is the decapitalized library name, and the resolved
sequence is topologically ordered both by dependency keys and by dependency
names. -/

def GoodInv (lookup : String → ParsedArtifact) (st : RState) : Prop :=
  (st.resolved.map (·.1)).Nodup ∧
  (∀ pr ∈ st.resolved, pr.1 = mkEntryKey pr.2 ∧
    pr.2.paramName = makeParamName pr.2.lib ∧ pr.2.artifact = lookup pr.2.lib) ∧
  KeyTopoFrom [] (st.resolved.map (·.2)) ∧
  TopoFrom [] (st.resolved.map (·.2))

/-- Conclusion of one successful `resolveOne` call. -/

def PoneConc (lookup : String → ParsedArtifact) (st : RState) (file lib : String)
    (e : ResolvedLibrary) (st' : RState) : Prop :=
  (∃ Δ, st'.resolved = st.resolved ++ Δ ∧ ∀ k ∈ Δ.map (·.1), k ∉ st.visiting) ∧
  st'.visiting = st.visiting ∧
  GoodInv lookup st' ∧
  (mkKey file lib, e) ∈ st'.resolved

/-- `resolveOne` at fuel `n` preserves the invariant. -/

def Pone (lookup : String → ParsedArtifact) (n : Nat) : Prop :=
  ∀ (st : RState) (file lib : String) (e : ResolvedLibrary) (st' : RState),
    GoodInv lookup st → resolveOne lookup n st file lib = .ok (e, st') →
    PoneConc lookup st file lib e st'

/-- `resolveList` at fuel `n` preserves the invariant and returns names of
resolved entries. -/

def Plist (lookup : String → ParsedArtifact) (n : Nat) : Prop :=
  ∀ (ps : List (String × String)) (st : RState) (acc0 names : List String) (st' : RState),
    GoodInv lookup st → resolveList lookup n (acc0, st) ps = .ok (names, st') →
    (∃ Δ, st'.resolved = st.resolved ++ Δ ∧ ∀ k ∈ Δ.map (·.1), k ∉ st.visiting) ∧
    st'.visiting = st.visiting ∧
    GoodInv lookup st' ∧
    (∃ newNames, names = acc0 ++ newNames ∧
      ∀ nm ∈ newNames, nm ∈ (st'.resolved.map (·.2)).map (·.paramName)) ∧
    (∀ d ∈ ps, mkKey d.1 d.2 ∈ st'.resolved.map (·.1))

/-- The expected resolution result for the `LibA → LibB` scenario. -/

def wLibs : List ResolvedLibrary :=
  [⟨"libB", "fB", "LibB", leafArt "LibB", []⟩,
   ⟨"libA", "fA", "LibA", artLibA, ["libB"]⟩]

-- ── Theorems ───────────────────────────────────────────────────────────

/-- C3: evaluation of `resolveLibraries` at the colon-key input: the
dependency graph is the acyclic two-node chain `("a:b","c") → ("a","b:c")`
(the second library has no dependencies at all), yet resolution fails with
`CircularDependency` on the shared string key `"a:b:c"`, because the code
conflates the two distinct `(declaringFile, libraryName)` identities. -/
theorem c3_spuriousCircularDependency :
    resolveLibraries lkColon 10 rfColon = .error (.circularDependency "a:b:c") ∧
    collectLibIds ((lkColon "c").linkReferences) = [("a", "b:c")] ∧
    collectLibIds ((lkColon "b:c").linkReferences) = [] ∧
    (("a:b", "c") : String × String) ≠ (("a", "b:c") : String × String) :=
  ⟨rfl, rfl, rfl, by decide⟩

/-- C4: evaluation of `resolveLibraries` at the `Foo`/`Foo`/`Foo2` input:
the disambiguation pass returns the names `foo`, `foo2`, `foo2`, which are
not pairwise distinct — renaming the second `foo` to `foo2` collides with
the entry whose derived name was already `foo2`. -/
theorem c4_duplicateParamNames :
    (resolveLibraries lkFoo 10 rfFoo).map (fun libs => libs.map (·.paramName)) =
      .ok ["foo", "foo2", "foo2"] ∧
    ¬ (["foo", "foo2", "foo2"] : List String).Nodup :=
  ⟨rfl, by decide⟩

/-- C6: for every artifact whose bytecode is empty (interface or abstract
contract), the per-contract generation step fails with `MissingBytecode`
naming the contract and produces no output source. -/
theorem c6_missingBytecode (lookup : String → ParsedArtifact) (fuel : Nat)
    (prag : String) (parsed : ParsedArtifact) (h : parsed.bytecode = "") :
    processContract lookup fuel prag parsed =
      .error (.missingBytecode parsed.contractName) ∧
    ∀ out : String, processContract lookup fuel prag parsed ≠ .ok out := by
  unfold processContract
  rw [if_pos h]
  exact ⟨rfl, fun out h' => by cases h'⟩

/-- Witness for C6 at a concrete interface artifact. -/
theorem c6_missingBytecode_witness :
    processContract lkChain 5 ">=0.8.0" artNoBytecode =
      .error (.missingBytecode "IFace") :=
  (c6_missingBytecode lkChain 5 ">=0.8.0" artNoBytecode rfl).1

/-- C7 counterexample: `parseArtifact` stores the bytecode of `0xAB` as
`AB`, not normalized to lowercase `ab` as the claim states. -/
theorem c7_counterexample :
    (parseArtifact rawUpper "C").bytecode = "AB" ∧
    toLowerString ((parseArtifact rawUpper "C").bytecode) = "ab" ∧
    (parseArtifact rawUpper "C").bytecode ≠
      toLowerString ((parseArtifact rawUpper "C").bytecode) :=
  ⟨rfl, rfl, by decide⟩

/-- C7 (amended): `parseArtifact` stores the bytecode as the value of the
nested `bytecode.object` field with any leading `0x` prefix removed and the
remaining characters kept verbatim (no case normalization). -/
theorem c7_bytecodeVerbatim (raw : RawArtifact) (nm : String) :
    (∀ rest : List Char,
      ((raw.bytecode.bind (·.object)).getD "").data = '0' :: 'x' :: rest →
      (parseArtifact raw nm).bytecode.data = rest ∧
      ((raw.bytecode.bind (·.object)).getD "").data =
        '0' :: 'x' :: (parseArtifact raw nm).bytecode.data) ∧
    ((∀ rest : List Char,
        ((raw.bytecode.bind (·.object)).getD "").data ≠ '0' :: 'x' :: rest) →
      (parseArtifact raw nm).bytecode = (raw.bytecode.bind (·.object)).getD "") := by
  constructor
  · intro rest h
    have hb : (parseArtifact raw nm).bytecode = ⟨rest⟩ := by
      show strip0x _ = _
      unfold strip0x
      rw [h]
      rfl
    rw [hb, h]
    exact ⟨rfl, rfl⟩
  · intro h
    show strip0x _ = _
    unfold strip0x
    split
    · next rest heq => exact absurd heq (h rest)
    · rfl

/-- Witness for C7 at the concrete `0xAB` document. -/
theorem c7_bytecodeVerbatim_witness :
    (parseArtifact rawUpper "C").bytecode.data = ['A', 'B'] ∧
    (("0xAB" : String)).data = '0' :: 'x' :: (parseArtifact rawUpper "C").bytecode.data :=
  (c7_bytecodeVerbatim rawUpper "C").1 ['A', 'B'] rfl

/-- C5 counterexample: `artLinked` has exactly one placeholder,
`("f", "MathLib")`, and `rlMathLib` is a resolved entry covering it — yet
the raw-initcode accessor still declares the library-address parameter
`address mathLib` (the source generates `initcode()` parameters from
`hasLinks` alone, regardless of resolution). -/
theorem c5_counterexample :
    (mainLibParamsOf artLinked).map (fun lp => (lp.file, lp.lib)) = [("f", "MathLib")] ∧
    rlMathLib.file = "f" ∧ rlMathLib.lib = "MathLib" ∧
    initcodeParamsList artLinked = ["address mathLib"] ∧
    initcodeParamsList artLinked ≠ [] :=
  ⟨rfl, rfl, rfl, rfl, by decide⟩

/-- C5 (amended): the `deploy` entry point declares no library-address
parameters whenever the artifact has no placeholders or `resolvedLibraries`
is non-empty (inlining), and — the converse legacy path — when placeholders
exist and `resolvedLibraries` is empty, `deploy` does declare one `address`
parameter per distinct placeholder (so, given placeholders, deploy omits
them iff `resolvedLibraries` is non-empty); the raw-initcode accessor
declares no address parameters only when the artifact has no placeholders
at all — when any placeholder exists it declares one `address` parameter
per distinct placeholder, resolved or not. -/
theorem c5_libraryParams (parsed : ParsedArtifact)
    (resolvedLibs : List ResolvedLibrary) :
    (mainLibParamsOf parsed = [] →
      initcodeParamsList parsed = [] ∧ deployLibAddrParams parsed resolvedLibs = []) ∧
    (resolvedLibs ≠ [] → deployLibAddrParams parsed resolvedLibs = []) ∧
    (mainLibParamsOf parsed ≠ [] →
      initcodeParamsList parsed =
        (mainLibParamsOf parsed).map (fun lp => "address " ++ lp.name)) ∧
    (mainLibParamsOf parsed ≠ [] → resolvedLibs = [] →
      deployLibAddrParams parsed resolvedLibs =
        (mainLibParamsOf parsed).map (fun lp => "address " ++ lp.name) ∧
      deployLibAddrParams parsed resolvedLibs ≠ []) := by
  refine ⟨fun h => ?_, fun h => ?_, fun h => ?_, fun h hr => ?_⟩
  · constructor
    · unfold initcodeParamsList hasLinksOf
      rw [h]
      simp
    · unfold deployLibAddrParams hasLinksOf
      rw [h]
      simp
  · unfold deployLibAddrParams inlineLibsOf
    have hrl : decide (0 < resolvedLibs.length) = true := by
      cases resolvedLibs with
      | nil => exact absurd rfl h
      | cons a l => simp
    rw [hrl]
    cases hasLinksOf parsed <;> simp
  · unfold initcodeParamsList hasLinksOf
    have hml : (0 < (mainLibParamsOf parsed).length) := List.length_pos.mpr h
    simp [hml]
  · subst hr
    have hml : (0 < (mainLibParamsOf parsed).length) := List.length_pos.mpr h
    unfold deployLibAddrParams inlineLibsOf hasLinksOf
    simp [hml]
    exact h

/-- Witness for C5 at a link-free artifact with a non-empty library list
(no address parameters anywhere) and at the linked artifact with an empty
library list (the legacy path: `deploy` declares the address parameter). -/
theorem c5_libraryParams_witness :
    (initcodeParamsList (leafArt "Token") = [] ∧
     deployLibAddrParams (leafArt "Token") [rlMathLib] = []) ∧
    deployLibAddrParams artLinked [] = ["address mathLib"] ∧
    deployLibAddrParams artLinked [] ≠ [] := by
  have hne : mainLibParamsOf artLinked ≠ [] := by
    intro hc
    have h1 : (mainLibParamsOf artLinked).length = 1 := rfl
    rw [hc] at h1
    exact absurd h1 (by decide)
  refine ⟨(c5_libraryParams (leafArt "Token") [rlMathLib]).1 rfl, ?_⟩
  have h2 := (c5_libraryParams artLinked []).2.2.2 hne rfl
  exact ⟨h2.1.trans rfl, h2.2⟩

/-- C10: the generated `deploy(...)` parameter list always ends in a
trailing `bytes32 salt` parameter, which is the sole parameter exactly when
there are neither constructor arguments nor library-address parameters, and
the deploy body always ends with the CREATE2 deployment statement
`deployed = DeployHelper.deploy(initcode_, salt);`. -/
theorem c10_create2Salt (parsed : ParsedArtifact) (resolvedLibs : List ResolvedLibrary)
    (inlineLibs : Bool) (rl : List ResolvedLibrary) (cp : List AbiParam) (ica : String) :
    (∃ pre : String, deployParamStr parsed resolvedLibs = pre ++ "bytes32 salt") ∧
    (ctorParamsOf parsed = [] → deployLibAddrParams parsed resolvedLibs = [] →
      deployParamStr parsed resolvedLibs = "bytes32 salt") ∧
    (renderDeployBodyLines inlineLibs rl cp ica).getLast? =
      some "        deployed = DeployHelper.deploy(initcode_, salt);" := by
  refine ⟨?_, fun hc hl => ?_, ?_⟩
  · unfold deployParamStr
    by_cases hdp : 0 < (deployParamsOf parsed resolvedLibs).length
    · refine ⟨strJoin ", " (deployParamsOf parsed resolvedLibs) ++ ", ", ?_⟩
      rw [if_pos hdp, String.append_assoc]
      rfl
    · exact ⟨"", by rw [if_neg hdp]; rfl⟩
  · unfold deployParamStr deployParamsOf deployCtorParams
    rw [hc, hl]
    simp
  · unfold renderDeployBodyLines
    exact List.getLast?_concat _

/-- Witness for C10 at a link-free artifact without constructor
arguments. -/
theorem c10_create2Salt_witness :
    deployParamStr (leafArt "Token") [] = "bytes32 salt" ∧
    (renderDeployBodyLines false [] [] "").getLast? =
      some "        deployed = DeployHelper.deploy(initcode_, salt);" :=
  ⟨(c10_create2Salt (leafArt "Token") [] false [] [] "").2.1 rfl rfl,
   (c10_create2Salt (leafArt "Token") [] false [] [] "").2.2⟩

/-- C8 counterexample: with colliding `file:lib` keys, the second slot's
placeholder segment is named `"c"` (the first slot's decapitalized library
name) instead of the decapitalization `"b:c"` of its own library name, and
the parameter list keeps a single entry where deduplication by the
`(declaringFile, libraryName)` pair would keep two. -/
theorem c8_counterexample :
    (buildBytecodeSegments "aabbcc" lrColonSeg).2 = [⟨"c", "a:b", "c"⟩] ∧
    (sortPlaceholders (flattenPlaceholders lrColonSeg)).map (fun p => (p.file, p.lib)) =
      [("a:b", "c"), ("a", "b:c")] ∧
    libValues (buildBytecodeSegments "aabbcc" lrColonSeg).1 = ["c", "c"] ∧
    makeParamName "b:c" = "b:c" ∧
    libValues (buildBytecodeSegments "aabbcc" lrColonSeg).1 ≠
      (sortPlaceholders (flattenPlaceholders lrColonSeg)).map (fun p => makeParamName p.lib) ∧
    (buildBytecodeSegments "aabbcc" lrColonSeg).2 ≠
      dedupByPair (sortPlaceholders (flattenPlaceholders lrColonSeg)) :=
  ⟨rfl, rfl, rfl, rfl, by decide, by decide⟩

theorem mkKey_data (f l : String) : (mkKey f l).data = f.data ++ ':' :: l.data := by
  simp [mkKey, String.data_append]

theorem sep_append_inj {c : Char} :
    ∀ (a₁ : List Char) {a₂ b₁ b₂ : List Char}, c ∉ a₁ → c ∉ a₂ →
      a₁ ++ c :: b₁ = a₂ ++ c :: b₂ → a₁ = a₂ ∧ b₁ = b₂ := by
  intro a₁
  induction a₁ with
  | nil =>
    intro a₂ b₁ b₂ _ h₂ h
    cases a₂ with
    | nil => simpa using h
    | cons y ys =>
      simp only [List.nil_append, List.cons_append, List.cons.injEq] at h
      exact absurd (h.1 ▸ List.mem_cons_self y ys) h₂
  | cons x xs ih =>
    intro a₂ b₁ b₂ h₁ h₂ h
    cases a₂ with
    | nil =>
      simp only [List.cons_append, List.nil_append, List.cons.injEq] at h
      exact absurd (h.1 ▸ List.mem_cons_self x xs) h₁
    | cons y ys =>
      simp only [List.cons_append, List.cons.injEq] at h
      have := ih (fun hm => h₁ (List.mem_cons_of_mem x hm))
        (fun hm => h₂ (h.1 ▸ List.mem_cons_of_mem y hm)) h.2
      exact ⟨by rw [h.1, this.1], this.2⟩

theorem mkKey_inj {f₁ l₁ f₂ l₂ : String} (h₁ : ':' ∉ f₁.data) (h₂ : ':' ∉ f₂.data)
    (h : mkKey f₁ l₁ = mkKey f₂ l₂) : f₁ = f₂ ∧ l₁ = l₂ := by
  have hd : f₁.data ++ ':' :: l₁.data = f₂.data ++ ':' :: l₂.data := by
    have := congrArg String.data h
    rwa [mkKey_data, mkKey_data] at this
  have := sep_append_inj f₁.data h₁ h₂ hd
  exact ⟨String.ext this.1, String.ext this.2⟩

theorem segDedupStep_pos (acc : List String × List LibParam) (p : Placeholder)
    (h : mkKey p.file p.lib ∈ acc.1) : segDedupStep acc p = acc := by
  simp [segDedupStep, h]

theorem segDedupStep_neg (acc : List String × List LibParam) (p : Placeholder)
    (h : mkKey p.file p.lib ∉ acc.1) :
    segDedupStep acc p =
      (acc.1 ++ [mkKey p.file p.lib],
       acc.2 ++ [⟨makeParamName p.lib, p.file, p.lib⟩]) := by
  simp [segDedupStep, h]

theorem pairDedupStep_pos (acc : List (String × String) × List LibParam)
    (p : Placeholder) (h : (p.file, p.lib) ∈ acc.1) : pairDedupStep acc p = acc := by
  simp [pairDedupStep, h]

theorem pairDedupStep_neg (acc : List (String × String) × List LibParam)
    (p : Placeholder) (h : (p.file, p.lib) ∉ acc.1) :
    pairDedupStep acc p =
      (acc.1 ++ [(p.file, p.lib)],
       acc.2 ++ [⟨makeParamName p.lib, p.file, p.lib⟩]) := by
  simp [pairDedupStep, h]

theorem buildLibParams_mem :
    ∀ (ps : List Placeholder) (acc : List String × List LibParam) (lp : LibParam),
      lp ∈ (ps.foldl segDedupStep acc).2 →
      lp ∈ acc.2 ∨ ∃ p ∈ ps, lp = ⟨makeParamName p.lib, p.file, p.lib⟩ := by
  intro ps
  induction ps with
  | nil => intro acc lp h; exact .inl h
  | cons p rest ih =>
    intro acc lp h
    simp only [List.foldl_cons] at h
    rcases ih (segDedupStep acc p) lp h with hacc | ⟨q, hq, he⟩
    · by_cases hk : mkKey p.file p.lib ∈ acc.1
      · rw [segDedupStep_pos acc p hk] at hacc
        exact .inl hacc
      · rw [segDedupStep_neg acc p hk] at hacc
        simp only [List.mem_append, List.mem_singleton] at hacc
        rcases hacc with h' | h'
        · exact .inl h'
        · exact .inr ⟨p, List.mem_cons_self p rest, h'⟩
    · exact .inr ⟨q, List.mem_cons_of_mem p hq, he⟩

theorem foldl_segDedup_covered :
    ∀ (ps : List Placeholder) (acc : List String × List LibParam) (k : String),
      (∃ lp ∈ acc.2, mkKey lp.file lp.lib = k) →
      ∃ lp ∈ (ps.foldl segDedupStep acc).2, mkKey lp.file lp.lib = k := by
  intro ps
  induction ps with
  | nil => intro acc k h; exact h
  | cons r rs ih =>
    intro acc k h
    simp only [List.foldl_cons]
    apply ih
    rcases h with ⟨lp, hlp, he⟩
    by_cases hk : mkKey r.file r.lib ∈ acc.1
    · rw [segDedupStep_pos acc r hk]
      exact ⟨lp, hlp, he⟩
    · rw [segDedupStep_neg acc r hk]
      exact ⟨lp, by simp [hlp], he⟩

theorem buildLibParams_keys :
    ∀ (ps : List Placeholder) (acc : List String × List LibParam),
      (∀ k ∈ acc.1, ∃ lp ∈ acc.2, mkKey lp.file lp.lib = k) →
      ∀ p ∈ ps, ∃ lp ∈ (ps.foldl segDedupStep acc).2,
        mkKey lp.file lp.lib = mkKey p.file p.lib := by
  intro ps
  induction ps with
  | nil => intro acc hinv p hp; cases hp
  | cons q rest ih =>
    intro acc hinv p hp
    simp only [List.foldl_cons]
    have hinv' : ∀ k ∈ (segDedupStep acc q).1,
        ∃ lp ∈ (segDedupStep acc q).2, mkKey lp.file lp.lib = k := by
      intro k hk
      by_cases hq : mkKey q.file q.lib ∈ acc.1
      · rw [segDedupStep_pos acc q hq] at hk ⊢
        exact hinv k hk
      · rw [segDedupStep_neg acc q hq] at hk ⊢
        simp only [List.mem_append, List.mem_singleton] at hk
        rcases hk with hk | hk
        · rcases hinv k hk with ⟨lp, hlp, he⟩
          exact ⟨lp, by simp [hlp], he⟩
        · exact ⟨⟨makeParamName q.lib, q.file, q.lib⟩, by simp, hk.symm⟩
    rcases List.mem_cons.mp hp with rfl | hp'
    · apply foldl_segDedup_covered
      by_cases hq : mkKey p.file p.lib ∈ acc.1
      · rw [segDedupStep_pos acc p hq]
        exact hinv _ hq
      · rw [segDedupStep_neg acc p hq]
        exact ⟨⟨makeParamName p.lib, p.file, p.lib⟩, by simp, rfl⟩
    · exact ih (segDedupStep acc q) hinv' p hp'

theorem libNameFor_of_colonFree (ps : List Placeholder)
    (hcf : ∀ p ∈ ps, ':' ∉ p.file.data) (p : Placeholder) (hp : p ∈ ps) :
    libNameFor (buildLibParams ps) (mkKey p.file p.lib) = makeParamName p.lib := by
  have hex : ∃ lp ∈ buildLibParams ps, mkKey lp.file lp.lib = mkKey p.file p.lib :=
    buildLibParams_keys ps ([], []) (by intro k hk; cases hk) p hp
  have hsome : ((buildLibParams ps).find?
      (fun lp => mkKey lp.file lp.lib == mkKey p.file p.lib)).isSome := by
    rw [List.find?_isSome]
    rcases hex with ⟨lp, hlp, he⟩
    exact ⟨lp, hlp, by simp [he]⟩
  rcases Option.isSome_iff_exists.mp hsome with ⟨lp₀, hfind⟩
  have hmem : lp₀ ∈ buildLibParams ps := List.mem_of_find?_eq_some hfind
  have hpred : mkKey lp₀.file lp₀.lib = mkKey p.file p.lib := by
    have := List.find?_some hfind
    simpa using this
  rcases buildLibParams_mem ps ([], []) lp₀ hmem with h0 | ⟨q, hq, rfl⟩
  · cases h0
  · have hqf : ':' ∉ q.file.data := hcf q hq
    have hpf : ':' ∉ p.file.data := hcf p hp
    have := mkKey_inj hqf hpf hpred
    unfold libNameFor
    rw [hfind]
    show makeParamName q.lib = makeParamName p.lib
    exact congrArg makeParamName this.2

theorem dedup_key_eq_pair :
    ∀ (ps : List Placeholder) (prs : List (String × String)) (lps : List LibParam),
      (∀ p ∈ ps, ':' ∉ p.file.data) →
      (∀ pr ∈ prs, ':' ∉ pr.1.data) →
      (ps.foldl segDedupStep (prs.map (fun pr => mkKey pr.1 pr.2), lps)).2 =
        (ps.foldl pairDedupStep (prs, lps)).2 := by
  intro ps
  induction ps with
  | nil => intro prs lps _ _; rfl
  | cons p rest ih =>
    intro prs lps hcf hprs
    simp only [List.foldl_cons]
    have hiff : (mkKey p.file p.lib ∈ prs.map (fun pr => mkKey pr.1 pr.2)) ↔
        ((p.file, p.lib) ∈ prs) := by
      constructor
      · intro h
        rcases List.mem_map.mp h with ⟨pr, hpr, he⟩
        have := mkKey_inj (hprs pr hpr) (hcf p (List.mem_cons_self p rest)) he
        have hpe : pr = (p.file, p.lib) := Prod.ext this.1 this.2
        exact hpe ▸ hpr
      · intro h
        exact List.mem_map.mpr ⟨(p.file, p.lib), h, rfl⟩
    by_cases hk : (p.file, p.lib) ∈ prs
    · rw [segDedupStep_pos _ p (hiff.mpr hk), pairDedupStep_pos _ p hk]
      exact ih prs lps (fun q hq => hcf q (List.mem_cons_of_mem p hq)) hprs
    · rw [segDedupStep_neg _ p (fun hc => hk (hiff.mp hc)), pairDedupStep_neg _ p hk]
      have : (prs.map (fun pr => mkKey pr.1 pr.2)) ++ [mkKey p.file p.lib] =
          (prs ++ [(p.file, p.lib)]).map (fun pr => mkKey pr.1 pr.2) := by
        simp
      rw [this]
      refine ih (prs ++ [(p.file, p.lib)]) (lps ++ [⟨makeParamName p.lib, p.file, p.lib⟩])
        (fun q hq => hcf q (List.mem_cons_of_mem p hq)) ?_
      intro pr hpr
      rcases List.mem_append.mp hpr with h' | h'
      · exact hprs pr h'
      · simp only [List.mem_singleton] at h'
        rw [h']
        exact hcf p (List.mem_cons_self p rest)

theorem buildLibParams_eq_dedupByPair (ps : List Placeholder)
    (hcf : ∀ p ∈ ps, ':' ∉ p.file.data) :
    buildLibParams ps = dedupByPair ps := by
  unfold buildLibParams dedupByPair
  have := dedup_key_eq_pair ps [] [] hcf (by intro pr hpr; cases hpr)
  simpa using this

theorem libValues_append (s₁ s₂ : List Segment) :
    libValues (s₁ ++ s₂) = libValues s₁ ++ libValues s₂ := by
  unfold libValues
  rw [List.filterMap_append]

theorem libValues_segLoop (bc : List Char) (lps : List LibParam) :
    ∀ (ps : List Placeholder) (cursor : Nat),
      (∀ p ∈ ps, libNameFor lps (mkKey p.file p.lib) = makeParamName p.lib) →
      libValues (segLoop bc lps cursor ps) = ps.map (fun p => makeParamName p.lib) := by
  intro ps
  induction ps with
  | nil =>
    intro cursor _
    unfold segLoop libValues
    split <;> simp
  | cons p rest ih =>
    intro cursor hnm
    show libValues ((if cursor < p.start * 2 then
        [Segment.hex ((bc.drop cursor).take (p.start * 2 - cursor))] else []) ++
      (Segment.lib (libNameFor lps (mkKey p.file p.lib)) ::
        segLoop bc lps ((p.start + p.length) * 2) rest)) = _
    rw [libValues_append]
    have h1 : libValues (if cursor < p.start * 2 then
        [Segment.hex ((bc.drop cursor).take (p.start * 2 - cursor))] else []) = [] := by
      split <;> simp [libValues]
    rw [h1]
    have h2 : libValues (Segment.lib (libNameFor lps (mkKey p.file p.lib)) ::
        segLoop bc lps ((p.start + p.length) * 2) rest) =
        libNameFor lps (mkKey p.file p.lib) ::
          libValues (segLoop bc lps ((p.start + p.length) * 2) rest) := by
      simp [libValues]
    rw [h2, hnm p (List.mem_cons_self p rest),
      ih _ (fun q hq => hnm q (List.mem_cons_of_mem p hq))]
    simp

/-- C8 (amended): when no declaring file name contains a colon (so the
`file:lib` string keys are in bijection with `(declaringFile, libraryName)`
pairs), every placeholder segment is named by decapitalizing its slot's bare
library name — in sorted slot order, never renamed — and the accessor
parameter list is the placeholders deduplicated by `(declaringFile,
libraryName)` in first-encounter order over the slots sorted ascending by
byte offset. -/
theorem c8_placeholderNaming (bytecode : String) (lr : LinkRefs)
    (hcf : ∀ p ∈ flattenPlaceholders lr, ':' ∉ p.file.data) :
    libValues (buildBytecodeSegments bytecode lr).1 =
      (sortPlaceholders (flattenPlaceholders lr)).map (fun p => makeParamName p.lib) ∧
    (buildBytecodeSegments bytecode lr).2 =
      dedupByPair (sortPlaceholders (flattenPlaceholders lr)) := by
  have hcf' : ∀ p ∈ sortPlaceholders (flattenPlaceholders lr), ':' ∉ p.file.data := by
    intro p hp
    exact hcf p ((List.mem_insertionSort phLE).mp hp)
  unfold buildBytecodeSegments
  by_cases hemp : (sortPlaceholders (flattenPlaceholders lr)).isEmpty
  · rw [if_pos hemp]
    have : sortPlaceholders (flattenPlaceholders lr) = [] := List.isEmpty_iff.mp hemp
    rw [this]
    constructor
    · simp [libValues]
    · rfl
  · rw [if_neg hemp]
    constructor
    · exact libValues_segLoop bytecode.data _ _ 0
        (fun p hp => libNameFor_of_colonFree _ hcf' p hp)
    · exact buildLibParams_eq_dedupByPair _ hcf'

/-- Witness for C8 at end-to-end scenario B: two placeholder segments both
named `mathLib`, one deduplicated accessor parameter. -/
theorem c8_placeholderNaming_witness :
    libValues (buildBytecodeSegments "00112233445566778899aabbccddeeff" lrScenB).1 =
      ["mathLib", "mathLib"] ∧
    (buildBytecodeSegments "00112233445566778899aabbccddeeff" lrScenB).2 =
      [⟨"mathLib", "src/MathLib.sol", "MathLib"⟩] ∧
    (buildBytecodeSegments "00112233445566778899aabbccddeeff" lrScenB).2 =
      dedupByPair (sortPlaceholders (flattenPlaceholders lrScenB)) :=
  ⟨((c8_placeholderNaming "00112233445566778899aabbccddeeff" lrScenB (by decide)).1).trans rfl,
   rfl,
   (c8_placeholderNaming "00112233445566778899aabbccddeeff" lrScenB (by decide)).2⟩

theorem dropWhile_append_all {p : Char → Bool} :
    ∀ {xs l : List Char}, (∀ x ∈ xs, p x = true) →
      (xs ++ l).dropWhile p = l.dropWhile p := by
  intro xs
  induction xs with
  | nil => intro l _; rfl
  | cons x rest ih =>
    intro l h
    simp only [List.cons_append, List.dropWhile_cons]
    rw [h x (List.mem_cons_self x rest)]
    simp only [if_true]
    exact ih (fun y hy => h y (List.mem_cons_of_mem x hy))

theorem takeWhile_append_all {p : Char → Bool} :
    ∀ {xs l : List Char}, (∀ x ∈ xs, p x = true) →
      (xs ++ l).takeWhile p = xs ++ l.takeWhile p := by
  intro xs
  induction xs with
  | nil => intro l _; rfl
  | cons x rest ih =>
    intro l h
    simp only [List.cons_append, List.takeWhile_cons]
    rw [h x (List.mem_cons_self x rest)]
    simp only [if_true]
    rw [ih (fun y hy => h y (List.mem_cons_of_mem x hy))]

theorem endsWithEmptyBrackets_iff (s : String) :
    endsWithEmptyBrackets s = true ↔ ∃ base : String, s = base ++ "[]" := by
  constructor
  · intro h
    unfold endsWithEmptyBrackets at h
    split at h
    · next t heq =>
      refine ⟨⟨t.reverse⟩, String.ext ?_⟩
      have := congrArg List.reverse heq
      rw [List.reverse_reverse] at this
      rw [this, String.data_append]
      simp
    · cases h
  · rintro ⟨base, rfl⟩
    unfold endsWithEmptyBrackets
    have : (base ++ "[]").data.reverse = ']' :: '[' :: base.data.reverse := by
      rw [String.data_append]
      show (base.data ++ ['[', ']']).reverse = _
      simp
    rw [this]
    rfl

theorem fixedArrayTest_iff (s : String) :
    fixedArrayTest s = true ↔
      ∃ (base : String) (ds : List Char), ds ≠ [] ∧ (∀ c ∈ ds, c.isDigit = true) ∧
        s.data = base.data ++ '[' :: ds ++ [']'] := by
  constructor
  · intro h
    unfold fixedArrayTest at h
    split at h
    · next rest heq =>
      -- heq : s.data.reverse = ']' :: rest
      split at h
      · next r hdrop =>
        -- hdrop : rest.dropWhile Char.isDigit = '[' :: r
        have hsplit : rest = rest.takeWhile Char.isDigit ++ '[' :: r := by
          conv_lhs => rw [← List.takeWhile_append_dropWhile (p := Char.isDigit) (l := rest)]
          rw [hdrop]
        have hne : rest.takeWhile Char.isDigit ≠ [] := by
          intro hcon
          rw [hcon] at h
          simp at h
        refine ⟨⟨r.reverse⟩, (rest.takeWhile Char.isDigit).reverse, ?_, ?_, ?_⟩
        · simpa using hne
        · intro c hc
          exact List.mem_takeWhile_imp (List.mem_reverse.mp hc)
        · have hs : s.data = (']' :: rest).reverse := by
            have := congrArg List.reverse heq
            rwa [List.reverse_reverse] at this
          conv_lhs => rw [hs, hsplit]
          simp
      · cases h
    · cases h
  · rintro ⟨base, ds, hne, hds, hdata⟩
    unfold fixedArrayTest
    have hrev : s.data.reverse = ']' :: (ds.reverse ++ '[' :: base.data.reverse) := by
      rw [hdata]
      simp
    rw [hrev]
    have hdrop : (ds.reverse ++ '[' :: base.data.reverse).dropWhile Char.isDigit =
        '[' :: base.data.reverse := by
      rw [dropWhile_append_all (fun x hx => hds x (List.mem_reverse.mp hx))]
      rw [List.dropWhile_cons]
      simp
    have htake : (ds.reverse ++ '[' :: base.data.reverse).takeWhile Char.isDigit =
        ds.reverse := by
      rw [takeWhile_append_all (fun x hx => hds x (List.mem_reverse.mp hx))]
      rw [List.takeWhile_cons]
      simp
    show (match (ds.reverse ++ '[' :: base.data.reverse).dropWhile Char.isDigit with
      | '[' :: _ => !((ds.reverse ++ '[' :: base.data.reverse).takeWhile Char.isDigit).isEmpty
      | _ => false) = true
    rw [hdrop, htake]
    show (!ds.reverse.isEmpty) = true
    simp [List.isEmpty_iff, hne]

theorem needsMemoryLocation_iff (s : String) :
    needsMemoryLocation s = true ↔
      s = "string" ∨ s = "bytes" ∨ (∃ base : String, s = base ++ "[]") ∨
        (∃ (base : String) (ds : List Char), ds ≠ [] ∧ (∀ c ∈ ds, c.isDigit = true) ∧
          s.data = base.data ++ '[' :: ds ++ [']']) := by
  unfold needsMemoryLocation
  by_cases h1 : s = "string"
  · simp [h1]
  by_cases h2 : s = "bytes"
  · simp [h2]
  have hb : (s == "string" || s == "bytes") = false := by
    simp [h1, h2]
  rw [hb]
  simp only [Bool.false_eq_true, if_false, h1, h2, false_or]
  by_cases h3 : (endsWithEmptyBrackets s || fixedArrayTest s) = true
  · rw [h3]
    simp only [if_true, true_iff]
    rcases Bool.or_eq_true_iff.mp h3 with h | h
    · exact .inl ((endsWithEmptyBrackets_iff s).mp h)
    · exact .inr ((fixedArrayTest_iff s).mp h)
  · rw [Bool.not_eq_true] at h3
    rw [h3]
    simp only [if_false, Bool.false_eq_true, false_iff]
    intro hcon
    rcases hcon with h | h
    · have := (endsWithEmptyBrackets_iff s).mpr h
      rw [Bool.or_eq_false_iff] at h3
      rw [this] at h3
      exact absurd h3.1 (by simp)
    · have := (fixedArrayTest_iff s).mpr h
      rw [Bool.or_eq_false_iff] at h3
      rw [this] at h3
      exact absurd h3.2 (by simp)

theorem isStructType_iff (s : String) (structNames : List String) :
    isStructType s structNames = true ↔ stripArraySuffixes s ∈ structNames := by
  unfold isStructType
  exact List.elem_iff

/-- C9: the rendered `deploy` parameter carries the `memory` location
exactly when the rendered type is `string` or `bytes`, an array type
(dynamic `[]` or fixed `[digits]` suffix), or a recorded struct name after
stripping any trailing array suffixes. -/
theorem c9_memoryPassing (p : AbiParam) (i : Nat) (structNames : List String) :
    formatParamWithStructs p i structNames =
      abiTypeToSolidity p ++
        (if needsMemoryLocation (abiTypeToSolidity p) ||
            isStructType (abiTypeToSolidity p) structNames then " memory" else "") ++
        " " ++ (if p.name = "" then "arg" ++ toString i else p.name) ∧
    ((needsMemoryLocation (abiTypeToSolidity p) ||
      isStructType (abiTypeToSolidity p) structNames) = true ↔
      SpecRefPassing (abiTypeToSolidity p) structNames) := by
  constructor
  · rfl
  · rw [Bool.or_eq_true_iff, needsMemoryLocation_iff, isStructType_iff]
    unfold SpecRefPassing IsArraySuffixed
    simp only [or_assoc]

theorem substSegments_hex (v : List Char) (rest : List Segment) (subs : List (List Char)) :
    substSegments (Segment.hex v :: rest) subs = v ++ substSegments rest subs := by
  cases subs <;> rfl

theorem substSegments_lib (nm : String) (rest : List Segment) (v : List Char)
    (subs : List (List Char)) :
    substSegments (Segment.lib nm :: rest) (v :: subs) = v ++ substSegments rest subs := rfl

theorem substSegments_segLoop (bc : List Char) (lps : List LibParam) :
    ∀ (ps : List Placeholder) (subs : List (List Char)) (cursor : Nat),
      ChainedFrom bc.length cursor ps → subs.length = ps.length →
      substSegments (segLoop bc lps cursor ps) subs =
        spliceFrom bc cursor (ps.zip subs) := by
  intro ps
  induction ps with
  | nil =>
    intro subs cursor hch hlen
    have hs : subs = [] := List.length_eq_zero.mp hlen
    subst hs
    show substSegments (if cursor < bc.length then [Segment.hex (bc.drop cursor)] else []) [] =
      bc.drop cursor
    by_cases hc : cursor < bc.length
    · rw [if_pos hc, substSegments_hex]
      simp [substSegments]
    · rw [if_neg hc]
      have : bc.drop cursor = [] := List.drop_eq_nil_of_le (Nat.le_of_not_lt hc)
      rw [this]
      rfl
  | cons p rest ih =>
    intro subs cursor hch hlen
    rcases hch with ⟨h1, h2, h3⟩
    cases subs with
    | nil => simp at hlen
    | cons v vs =>
      have hlen' : vs.length = rest.length := by simpa using hlen
      have hrec := ih vs (2 * (p.start + p.length)) h3 hlen'
      show substSegments
        ((if cursor < p.start * 2 then
          [Segment.hex ((bc.drop cursor).take (p.start * 2 - cursor))] else []) ++
          (Segment.lib (libNameFor lps (mkKey p.file p.lib)) ::
            segLoop bc lps ((p.start + p.length) * 2) rest)) (v :: vs) =
        spliceFrom bc cursor ((p, v) :: rest.zip vs)
      simp only [spliceFrom]
      by_cases hc : cursor < p.start * 2
      · rw [if_pos hc, List.singleton_append, substSegments_hex, substSegments_lib]
        rw [show (p.start + p.length) * 2 = 2 * (p.start + p.length) from Nat.mul_comm _ _,
          hrec, show p.start * 2 = 2 * p.start from Nat.mul_comm _ _]
        simp [List.append_assoc]
      · rw [if_neg hc, List.nil_append, substSegments_lib]
        rw [show (p.start + p.length) * 2 = 2 * (p.start + p.length) from Nat.mul_comm _ _,
          hrec]
        have hz : 2 * p.start - cursor = 0 := by
          rw [Nat.mul_comm p.start 2] at hc
          omega
        rw [hz]
        simp

theorem spliceFrom_congr (n : Nat) :
    ∀ (l : List (Placeholder × List Char)) (bc₁ bc₂ : List Char) (cursor : Nat),
      bc₁.drop cursor = bc₂.drop cursor →
      ChainedFrom n cursor (l.map Prod.fst) →
      spliceFrom bc₁ cursor l = spliceFrom bc₂ cursor l := by
  intro l
  induction l with
  | nil => intro bc₁ bc₂ cursor h _; exact h
  | cons pv rest ih =>
    obtain ⟨p, v⟩ := pv
    intro bc₁ bc₂ cursor h hch
    rcases hch with ⟨h1, h2, h3⟩
    dsimp only at h1 h2 h3
    show (bc₁.drop cursor).take (2 * p.start - cursor) ++ v ++
        spliceFrom bc₁ (2 * (p.start + p.length)) rest =
      (bc₂.drop cursor).take (2 * p.start - cursor) ++ v ++
        spliceFrom bc₂ (2 * (p.start + p.length)) rest
    have hd : bc₁.drop (2 * (p.start + p.length)) =
        bc₂.drop (2 * (p.start + p.length)) := by
      have e₁ : bc₁.drop (2 * (p.start + p.length)) =
          (bc₁.drop cursor).drop (2 * (p.start + p.length) - cursor) := by
        rw [List.drop_drop]
        congr 1
        omega
      have e₂ : bc₂.drop (2 * (p.start + p.length)) =
          (bc₂.drop cursor).drop (2 * (p.start + p.length) - cursor) := by
        rw [List.drop_drop]
        congr 1
        omega
      rw [e₁, e₂, h]
    rw [h, ih bc₁ bc₂ (2 * (p.start + p.length)) hd h3]

theorem replaceSlots_eq_spliceFrom :
    ∀ (l : List (Placeholder × List Char)) (bc : List Char) (cursor : Nat),
      ChainedFrom bc.length cursor (l.map Prod.fst) →
      (∀ pv ∈ l, pv.2.length = 2 * pv.1.length) →
      replaceSlots bc l = bc.take cursor ++ spliceFrom bc cursor l := by
  intro l
  induction l with
  | nil =>
    intro bc cursor _ _
    show bc = bc.take cursor ++ bc.drop cursor
    rw [List.take_append_drop]
  | cons pv rest ih =>
    obtain ⟨p, v⟩ := pv
    intro bc cursor hch hlen
    rcases hch with ⟨h1, h2, h3⟩
    dsimp only at h1 h2 h3
    have hv : v.length = 2 * p.length := hlen (p, v) (List.mem_cons_self _ rest)
    have hlen' : ∀ qv ∈ rest, qv.2.length = 2 * qv.1.length :=
      fun qv hq => hlen qv (List.mem_cons_of_mem _ hq)
    have htk : (bc.take (2 * p.start)).length = 2 * p.start := by
      rw [List.length_take]
      omega
    show replaceSlots (bc.take (2 * p.start) ++ v ++
      bc.drop (2 * (p.start + p.length))) rest = _
    rw [List.append_assoc]
    set bc' := bc.take (2 * p.start) ++ (v ++ bc.drop (2 * (p.start + p.length))) with hbcdefn
    have hbc'l : bc'.length = bc.length := by
      rw [hbcdefn]
      simp only [List.length_append, List.length_take, List.length_drop, hv]
      omega
    have hch' : ChainedFrom bc'.length (2 * (p.start + p.length)) (rest.map Prod.fst) := by
      rw [hbc'l]
      exact h3
    rw [ih bc' (2 * (p.start + p.length)) hch' hlen']
    have hfront : (bc.take (2 * p.start) ++ v).length = 2 * (p.start + p.length) := by
      rw [List.length_append, htk, hv]
      omega
    have htake' : bc'.take (2 * (p.start + p.length)) = bc.take (2 * p.start) ++ v := by
      rw [hbcdefn, ← List.append_assoc, ← hfront, List.take_left]
    have hdrop' : bc'.drop (2 * (p.start + p.length)) =
        bc.drop (2 * (p.start + p.length)) := by
      rw [hbcdefn, ← List.append_assoc, ← hfront, List.drop_left]
    have hsp : spliceFrom bc' (2 * (p.start + p.length)) rest =
        spliceFrom bc (2 * (p.start + p.length)) rest :=
      spliceFrom_congr bc.length rest bc' bc _ (by rw [hdrop']) h3
    rw [htake', hsp]
    show (bc.take (2 * p.start) ++ v) ++
        spliceFrom bc (2 * (p.start + p.length)) rest =
      bc.take cursor ++ ((bc.drop cursor).take (2 * p.start - cursor) ++ v ++
        spliceFrom bc (2 * (p.start + p.length)) rest)
    have htadd : bc.take (2 * p.start) =
        bc.take cursor ++ (bc.drop cursor).take (2 * p.start - cursor) := by
      have h2s : 2 * p.start = cursor + (2 * p.start - cursor) := by omega
      rw [h2s, List.take_add]
      congr 2
      omega
    rw [htadd]
    simp [List.append_assoc]

theorem slotsDisjoint_symm : Symmetric SlotsDisjoint := by
  intro p q h
  exact h.elim .inr .inl

theorem chainedFrom_of_sorted (n : Nat) :
    ∀ (ps : List Placeholder) (cursor : Nat),
      ps.Sorted phLE →
      ps.Pairwise SlotsDisjoint →
      (∀ p ∈ ps, 0 < p.length) →
      (∀ p ∈ ps, 2 * (p.start + p.length) ≤ n) →
      (∀ p ∈ ps, cursor ≤ 2 * p.start) →
      cursor ≤ n →
      ChainedFrom n cursor ps := by
  intro ps
  induction ps with
  | nil => intro cursor _ _ _ _ _ h; exact h
  | cons p rest ih =>
    intro cursor hsort hdisj hpos hbound hcur hn
    have hsort' := (List.sorted_cons.mp hsort)
    have hdisj' := (List.pairwise_cons.mp hdisj)
    refine ⟨hcur p (List.mem_cons_self p rest), hbound p (List.mem_cons_self p rest), ?_⟩
    refine ih (2 * (p.start + p.length)) hsort'.2 hdisj'.2
      (fun q hq => hpos q (List.mem_cons_of_mem p hq))
      (fun q hq => hbound q (List.mem_cons_of_mem p hq)) ?_
      (hbound p (List.mem_cons_self p rest))
    intro q hq
    have hle : p.start ≤ q.start := hsort'.1 q hq
    have hq0 : 0 < q.length := hpos q (List.mem_cons_of_mem p hq)
    rcases hdisj'.1 q hq with h | h
    · omega
    · omega

/-- C1 (amended): for every even-length bytecode hex string and every set of
link slots with positive byte length whose byte ranges lie within the
bytecode and do not overlap, concatenating the segments produced by
`buildBytecodeSegments` — literal segments as-is, every placeholder segment
substituted by any fixed hex string of twice the slot's byte length — yields
the original bytecode with exactly those slot ranges replaced by the
substituted values. -/
theorem c1_roundTrip (bytecode : String) (lr : LinkRefs) (subs : List (List Char))
    (heven : bytecode.length % 2 = 0)
    (hpos : ∀ p ∈ flattenPlaceholders lr, 0 < p.length)
    (hbound : ∀ p ∈ flattenPlaceholders lr,
      p.start + p.length ≤ bytecode.length / 2)
    (hdisj : (flattenPlaceholders lr).Pairwise SlotsDisjoint)
    (hlen : subs.length = (sortPlaceholders (flattenPlaceholders lr)).length)
    (hsub : ∀ pv ∈ (sortPlaceholders (flattenPlaceholders lr)).zip subs,
      pv.2.length = 2 * pv.1.length) :
    substSegments (buildBytecodeSegments bytecode lr).1 subs =
      replaceSlots bytecode.data
        ((sortPlaceholders (flattenPlaceholders lr)).zip subs) := by
  have hperm : List.Perm (sortPlaceholders (flattenPlaceholders lr))
      (flattenPlaceholders lr) :=
    List.perm_insertionSort phLE (flattenPlaceholders lr)
  have hmem : ∀ p ∈ sortPlaceholders (flattenPlaceholders lr),
      p ∈ flattenPlaceholders lr := fun p hp => hperm.mem_iff.mp hp
  have hlendata : bytecode.data.length = bytecode.length := rfl
  have hsorted : (sortPlaceholders (flattenPlaceholders lr)).Sorted phLE :=
    List.sorted_insertionSort phLE (flattenPlaceholders lr)
  have hdisj' : (sortPlaceholders (flattenPlaceholders lr)).Pairwise SlotsDisjoint :=
    (hperm.pairwise_iff (fun h => slotsDisjoint_symm h)).mpr hdisj
  have hch : ChainedFrom bytecode.data.length 0
      (sortPlaceholders (flattenPlaceholders lr)) := by
    rw [hlendata]
    refine chainedFrom_of_sorted bytecode.length _ 0 hsorted hdisj'
      (fun p hp => hpos p (hmem p hp)) ?_ (fun p hp => Nat.zero_le _) (Nat.zero_le _)
    intro p hp
    have := hbound p (hmem p hp)
    omega
  unfold buildBytecodeSegments
  by_cases hemp : (sortPlaceholders (flattenPlaceholders lr)).isEmpty
  · rw [if_pos hemp]
    have he : sortPlaceholders (flattenPlaceholders lr) = [] := List.isEmpty_iff.mp hemp
    rw [he]
    show substSegments [Segment.hex bytecode.data] subs = replaceSlots bytecode.data []
    rw [substSegments_hex]
    show bytecode.data ++ substSegments [] subs = bytecode.data
    cases subs <;> simp [substSegments]
  · rw [if_neg hemp]
    show substSegments (segLoop bytecode.data _ 0 _) subs = _
    rw [substSegments_segLoop bytecode.data _ _ subs 0 hch hlen]
    have hmap : ((sortPlaceholders (flattenPlaceholders lr)).zip subs).map Prod.fst =
        sortPlaceholders (flattenPlaceholders lr) :=
      List.map_fst_zip _ _ (le_of_eq hlen.symm)
    rw [replaceSlots_eq_spliceFrom _ bytecode.data 0 (by rw [hmap]; exact hch) hsub]
    rfl

/-- C1 counterexample: with a zero-length slot, all hypotheses of the claim
hold (even length, ranges within bounds, no overlap, substitutions of twice
each slot's byte length), yet the substituted concatenation is
`ccaabb` — the cursor jumps backwards over the zero-length slot and
duplicates bytes — while the bytecode with the ranges replaced is `ccbb`. -/
theorem c1_counterexample :
    ("aabb" : String).length % 2 = 0 ∧
    (∀ p ∈ flattenPlaceholders lrZeroLen,
      p.start + p.length ≤ ("aabb" : String).length / 2) ∧
    (flattenPlaceholders lrZeroLen).Pairwise SlotsDisjoint ∧
    (∀ pv ∈ (sortPlaceholders (flattenPlaceholders lrZeroLen)).zip ["cc".data, []],
      pv.2.length = 2 * pv.1.length) ∧
    substSegments (buildBytecodeSegments "aabb" lrZeroLen).1 ["cc".data, []] ≠
      replaceSlots "aabb".data
        ((sortPlaceholders (flattenPlaceholders lrZeroLen)).zip ["cc".data, []]) := by
  refine ⟨by decide, by decide, ?_, by decide, by decide⟩
  unfold SlotsDisjoint
  decide

/-- Witness for C1 at end-to-end scenario B with substitutions `dead` and
`beef`. -/
theorem c1_roundTrip_witness :
    substSegments (buildBytecodeSegments "00112233445566778899aabbccddeeff" lrScenB).1
      ["dead".data, "beef".data] =
    replaceSlots "00112233445566778899aabbccddeeff".data
      ((sortPlaceholders (flattenPlaceholders lrScenB)).zip
        ["dead".data, "beef".data]) ∧
    substSegments (buildBytecodeSegments "00112233445566778899aabbccddeeff" lrScenB).1
      ["dead".data, "beef".data] = "00dead3344beef778899aabbccddeeff".data :=
  ⟨c1_roundTrip "00112233445566778899aabbccddeeff" lrScenB
      ["dead".data, "beef".data] (by decide) (by decide) (by decide)
      (by unfold SlotsDisjoint; decide) (by decide) (by decide),
   rfl⟩

theorem except_bind_ok {α β : Type} {x : Except GenError α} {f : α → Except GenError β}
    {b : β} : x.bind f = .ok b ↔ ∃ a, x = .ok a ∧ f a = .ok b := by
  cases x with
  | error e => simp [Except.bind]
  | ok a => simp [Except.bind]

theorem lookup_mem {rs : List (String × ResolvedLibrary)} {k : String}
    {v : ResolvedLibrary} (h : rs.lookup k = some v) : (k, v) ∈ rs := by
  induction rs with
  | nil => cases h
  | cons pr rest ih =>
    rw [List.lookup] at h
    by_cases he : (k == pr.1) = true
    · rw [he] at h
      have hv : pr.2 = v := by injection h
      have hk : k = pr.1 := by simpa using he
      have : (k, v) = pr := by
        rw [hk, ← hv]
      rw [this]
      exact List.mem_cons_self pr rest
    · have he' : (k == pr.1) = false := by simpa using he
      rw [he'] at h
      exact List.mem_cons_of_mem _ (ih h)

theorem lookup_none_not_mem {rs : List (String × ResolvedLibrary)} {k : String}
    (h : rs.lookup k = none) : k ∉ rs.map (·.1) := by
  induction rs with
  | nil => simp
  | cons pr rest ih =>
    rw [List.lookup] at h
    by_cases he : (k == pr.1) = true
    · rw [he] at h
      cases h
    · have he' : (k == pr.1) = false := by simpa using he
      rw [he'] at h
      simp only [List.map_cons, List.mem_cons]
      rintro (h' | h')
      · exact absurd (by simp [h']) he
      · exact ih h h'

theorem topoFrom_snoc :
    ∀ (l : List ResolvedLibrary) (done : List String) (e : ResolvedLibrary),
      TopoFrom done l →
      (∀ nm ∈ e.deps, nm ∈ done ++ l.map (·.paramName)) →
      TopoFrom done (l ++ [e]) := by
  intro l
  induction l with
  | nil =>
    intro done e _ hd
    refine ⟨?_, trivial⟩
    intro nm hnm
    simpa using hd nm hnm
  | cons f fs ih =>
    intro done e ht hd
    refine ⟨ht.1, ?_⟩
    refine ih (done ++ [f.paramName]) e ht.2 ?_
    intro nm hnm
    have := hd nm hnm
    simp only [List.map_cons, List.mem_append, List.mem_cons] at this ⊢
    tauto

theorem keyTopoFrom_snoc :
    ∀ (l : List ResolvedLibrary) (ks : List String) (e : ResolvedLibrary),
      KeyTopoFrom ks l →
      (∀ d ∈ collectLibIds e.artifact.linkReferences,
        mkKey d.1 d.2 ∈ ks ++ l.map mkEntryKey) →
      KeyTopoFrom ks (l ++ [e]) := by
  intro l
  induction l with
  | nil =>
    intro ks e _ hd
    refine ⟨?_, trivial⟩
    intro d hdm
    simpa using hd d hdm
  | cons f fs ih =>
    intro ks e ht hd
    refine ⟨ht.1, ?_⟩
    refine ih (ks ++ [mkKey f.file f.lib]) e ht.2 ?_
    intro d hdm
    have := hd d hdm
    simp only [List.map_cons, List.mem_append, List.mem_cons, mkEntryKey] at this ⊢
    tauto

theorem topoFrom_mem_take :
    ∀ (l : List ResolvedLibrary) (done : List String), TopoFrom done l →
      ∀ (i : Nat) (h : i < l.length), ∀ nm ∈ (l.get ⟨i, h⟩).deps,
        nm ∈ done ++ (l.take i).map (·.paramName) := by
  intro l
  induction l with
  | nil => intro done _ i h; cases h
  | cons e es ih =>
    intro done ht i h nm hnm
    cases i with
    | zero =>
      simp only [List.take_zero, List.map_nil, List.append_nil]
      exact ht.1 nm hnm
    | succ j =>
      have := ih (done ++ [e.paramName]) ht.2 j (by simpa using h) nm hnm
      simp only [List.take_succ_cons, List.map_cons, List.append_assoc] at this ⊢
      simpa using this

theorem resolveList_nil (lookup : String → ParsedArtifact) (n : Nat)
    (acc : List String × RState) :
    resolveList lookup n acc [] = .ok acc := rfl

theorem resolveList_cons (lookup : String → ParsedArtifact) (n : Nat)
    (acc0 : List String) (st : RState) (d : String × String)
    (ds : List (String × String)) :
    resolveList lookup n (acc0, st) (d :: ds) =
      (resolveOne lookup n st d.1 d.2).bind
        (fun r => resolveList lookup n (acc0 ++ [r.1.paramName], r.2) ds) := by
  rw [resolveList, List.foldlM_cons]
  cases hr : resolveOne lookup n st d.1 d.2 with
  | error e => rfl
  | ok r =>
    obtain ⟨e1, st1⟩ := r
    rfl

theorem resolveOne_succ (lookup : String → ParsedArtifact) (n : Nat) (st : RState)
    (file lib : String) :
    resolveOne lookup (n + 1) st file lib =
      match st.resolved.lookup (mkKey file lib) with
      | some entry => .ok (entry, st)
      | none =>
        if mkKey file lib ∈ st.visiting then
          .error (.circularDependency (mkKey file lib))
        else
          (resolveList lookup n ([], ⟨st.resolved, mkKey file lib :: st.visiting⟩)
            (collectLibIds ((lookup lib).linkReferences))).bind
          (fun r =>
            .ok (⟨makeParamName lib, file, lib, lookup lib, r.1⟩,
              ⟨r.2.resolved ++
                [(mkKey file lib, ⟨makeParamName lib, file, lib, lookup lib, r.1⟩)],
               r.2.visiting.erase (mkKey file lib)⟩)) := by
  cases hl : st.resolved.lookup (mkKey file lib) with
  | some entry => rw [resolveOne, hl]
  | none =>
    rw [resolveOne, hl]
    rfl

theorem plist_of_pone (lookup : String → ParsedArtifact) (n : Nat)
    (hpone : Pone lookup n) : Plist lookup n := by
  intro ps
  induction ps with
  | nil =>
    intro st acc0 names st' hinv h
    rw [resolveList_nil] at h
    have h1 : acc0 = names ∧ st = st' := by
      injection h with h'
      exact ⟨congrArg Prod.fst h', congrArg Prod.snd h'⟩
    obtain ⟨rfl, rfl⟩ := h1
    refine ⟨⟨[], by simp, by simp⟩, rfl, hinv, ⟨[], by simp, by simp⟩, by simp⟩
  | cons d ds ih =>
    intro st acc0 names st' hinv h
    rw [resolveList_cons] at h
    rw [except_bind_ok] at h
    obtain ⟨r, hr, hrest⟩ := h
    obtain ⟨e, st₁⟩ := r
    have hone := hpone st d.1 d.2 e st₁ hinv hr
    obtain ⟨⟨Δ₁, hΔ₁, hfr₁⟩, hvis₁, hinv₁, hmem₁⟩ := hone
    have hrec := ih st₁ (acc0 ++ [e.paramName]) names st' hinv₁ hrest
    obtain ⟨⟨Δ₂, hΔ₂, hfr₂⟩, hvis₂, hinv₂, ⟨nn₂, hnn₂, hnmem₂⟩, hkeys₂⟩ := hrec
    refine ⟨⟨Δ₁ ++ Δ₂, ?_, ?_⟩, ?_, hinv₂, ⟨e.paramName :: nn₂, ?_, ?_⟩, ?_⟩
    · rw [hΔ₂, hΔ₁, List.append_assoc]
    · intro k hk
      rw [List.map_append, List.mem_append] at hk
      rcases hk with hk | hk
      · exact hfr₁ k hk
      · rw [hvis₁] at hfr₂
        exact hfr₂ k hk
    · rw [hvis₂, hvis₁]
    · rw [hnn₂, List.append_assoc]
      rfl
    · intro nm hnm
      rcases List.mem_cons.mp hnm with rfl | hnm
      · -- e is in st₁.resolved, which is a prefix of st'.resolved
        have he₁ : e ∈ st₁.resolved.map (·.2) :=
          List.mem_map.mpr ⟨(mkKey d.1 d.2, e), hmem₁, rfl⟩
        have he' : e ∈ st'.resolved.map (·.2) := by
          rw [hΔ₂, List.map_append]
          exact List.mem_append_left _ he₁
        exact List.mem_map.mpr ⟨e, he', rfl⟩
      · exact hnmem₂ nm hnm
    · intro d' hd'
      rcases List.mem_cons.mp hd' with rfl | hd'
      · have : (mkKey d'.1 d'.2) ∈ st₁.resolved.map (·.1) :=
          List.mem_map.mpr ⟨(mkKey d'.1 d'.2, e), hmem₁, rfl⟩
        rw [hΔ₂, List.map_append]
        exact List.mem_append_left _ this
      · exact hkeys₂ d' hd'

theorem keys_eq_entryKeys (rs : List (String × ResolvedLibrary))
    (hc : ∀ pr ∈ rs, pr.1 = mkEntryKey pr.2) :
    rs.map (·.1) = (rs.map (·.2)).map mkEntryKey := by
  rw [List.map_map]
  exact List.map_congr_left hc

theorem pone_zero (lookup : String → ParsedArtifact) : Pone lookup 0 := by
  intro st f l e st' _ h
  rw [resolveOne] at h
  cases h

theorem pone_succ (lookup : String → ParsedArtifact) (n : Nat)
    (hplist : Plist lookup n) : Pone lookup (n + 1) := by
  intro st file lib e st' hinv h
  rw [resolveOne_succ] at h
  cases hl : st.resolved.lookup (mkKey file lib) with
  | some entry =>
    rw [hl] at h
    have h1 : entry = e ∧ st = st' := by
      injection h with h'
      exact ⟨congrArg Prod.fst h', congrArg Prod.snd h'⟩
    obtain ⟨rfl, rfl⟩ := h1
    exact ⟨⟨[], by simp, by simp⟩, rfl, hinv, lookup_mem hl⟩
  | none =>
    rw [hl] at h
    by_cases hv : mkKey file lib ∈ st.visiting
    · rw [if_pos hv] at h
      cases h
    · rw [if_neg hv] at h
      rw [except_bind_ok] at h
      obtain ⟨r, hr, hok⟩ := h
      obtain ⟨deps, st₂⟩ := r
      dsimp only at hr hok
      have h2 : (⟨makeParamName lib, file, lib, lookup lib, deps⟩ : ResolvedLibrary) = e ∧
          (⟨st₂.resolved ++
            [(mkKey file lib, ⟨makeParamName lib, file, lib, lookup lib, deps⟩)],
           st₂.visiting.erase (mkKey file lib)⟩ : RState) = st' := by
        injection hok with h'
        exact ⟨congrArg Prod.fst h', congrArg Prod.snd h'⟩
      obtain ⟨he, hst'⟩ := h2
      subst he
      subst hst'
      have hinv₁ : GoodInv lookup ⟨st.resolved, mkKey file lib :: st.visiting⟩ := hinv
      have hlist := hplist (collectLibIds ((lookup lib).linkReferences))
        ⟨st.resolved, mkKey file lib :: st.visiting⟩ [] deps st₂ hinv₁ hr
      obtain ⟨⟨Δ, hΔ, hfr⟩, hvis, hinv₂, ⟨nn, hnn, hnmem⟩, hkeys⟩ := hlist
      dsimp only at hΔ hfr hvis hkeys
      have hnn' : deps = nn := by simpa using hnn
      subst hnn'
      have hkey_st : mkKey file lib ∉ st.resolved.map (·.1) := lookup_none_not_mem hl
      have hkey_Δ : mkKey file lib ∉ Δ.map (·.1) := by
        intro hc
        exact (hfr _ hc) (List.mem_cons_self _ _)
      have hkey₂ : mkKey file lib ∉ st₂.resolved.map (·.1) := by
        rw [hΔ, List.map_append, List.mem_append]
        rintro (hc | hc)
        · exact hkey_st hc
        · exact hkey_Δ hc
      obtain ⟨hnodup₂, hcons₂, hkeytopo₂, htopo₂⟩ := hinv₂
      refine ⟨⟨Δ ++ [(mkKey file lib,
          ⟨makeParamName lib, file, lib, lookup lib, deps⟩)], ?_, ?_⟩, ?_, ⟨?_, ?_, ?_, ?_⟩, ?_⟩
      · show st₂.resolved ++ _ = _
        rw [hΔ, List.append_assoc]
      · intro k hk
        simp only [List.map_append, List.map_cons, List.map_nil, List.mem_append,
          List.mem_cons, List.not_mem_nil, or_false] at hk
        rcases hk with hk | hk
        · intro hc
          exact (hfr k hk) (List.mem_cons_of_mem _ hc)
        · rw [hk]
          exact hv
      · show st₂.visiting.erase (mkKey file lib) = st.visiting
        rw [hvis]
        exact List.erase_cons_head _ _
      · -- Nodup keys
        show ((st₂.resolved ++ _).map (·.1)).Nodup
        simp only [List.map_append, List.map_cons, List.map_nil]
        rw [List.nodup_append]
        refine ⟨hnodup₂, by simp, ?_⟩
        intro a ha hb
        simp only [List.mem_cons, List.not_mem_nil, or_false] at hb
        rw [hb] at ha
        exact hkey₂ ha
      · -- entry consistency
        intro pr hpr
        rcases List.mem_append.mp hpr with hpr | hpr
        · exact hcons₂ pr hpr
        · simp only [List.mem_cons, List.not_mem_nil, or_false] at hpr
          rw [hpr]
          exact ⟨rfl, rfl, rfl⟩
      · -- key-topological order
        show KeyTopoFrom [] ((st₂.resolved ++ _).map (·.2))
        simp only [List.map_append, List.map_cons, List.map_nil]
        refine keyTopoFrom_snoc _ [] _ hkeytopo₂ ?_
        intro d hd
        have hd' : d ∈ collectLibIds ((lookup lib).linkReferences) := hd
        have := hkeys d hd'
        rw [keys_eq_entryKeys st₂.resolved (fun pr hpr => (hcons₂ pr hpr).1)] at this
        simpa using this
      · -- name-topological order
        show TopoFrom [] ((st₂.resolved ++ _).map (·.2))
        simp only [List.map_append, List.map_cons, List.map_nil]
        refine topoFrom_snoc _ [] _ htopo₂ ?_
        intro nm hnm
        have hnm' : nm ∈ deps := hnm
        have := hnmem nm hnm'
        simpa using this
      · exact List.mem_append_right _ (List.mem_cons_self _ _)

theorem pone_all (lookup : String → ParsedArtifact) : ∀ n : Nat, Pone lookup n := by
  intro n
  induction n with
  | zero => exact pone_zero lookup
  | succ n ih => exact pone_succ lookup n (plist_of_pone lookup n ih)

theorem assocSet_not_mem {α : Type} :
    ∀ (m : List (String × α)) (k : String) (v : α), k ∉ m.map (·.1) →
      assocSet m k v = m ++ [(k, v)] := by
  intro m
  induction m with
  | nil => intro k v _; rfl
  | cons pr rest ih =>
    intro k v hk
    simp only [List.map_cons, List.mem_cons] at hk
    push_neg at hk
    rw [assocSet, if_neg (fun hc => hk.1 hc.symm), ih k v hk.2]
    rfl

theorem foldl_assocSet_eq_map :
    ∀ (l : List ResolvedLibrary) (m : List (String × String)),
      (∀ e ∈ l, mkEntryKey e ∉ m.map (·.1)) → (l.map mkEntryKey).Nodup →
      l.foldl (fun m e => assocSet m (mkKey e.file e.lib) e.paramName) m =
        m ++ l.map (fun e => (mkEntryKey e, e.paramName)) := by
  intro l
  induction l with
  | nil => intro m _ _; simp
  | cons e es ih =>
    intro m hm hnd
    simp only [List.foldl_cons]
    have hset : assocSet m (mkKey e.file e.lib) e.paramName = m ++ [(mkEntryKey e, e.paramName)] :=
      assocSet_not_mem m _ _ (hm e (List.mem_cons_self e es))
    rw [hset]
    simp only [List.map_cons, List.nodup_cons] at hnd
    rw [ih (m ++ [(mkEntryKey e, e.paramName)]) ?_ hnd.2]
    · simp
    · intro f hf
      simp only [List.map_append, List.mem_append, List.map_cons, List.map_nil,
        List.mem_cons, List.not_mem_nil, or_false]
      rintro (hc | hc)
      · exact hm f (List.mem_cons_of_mem e hf) hc
      · exact hnd.1 (hc ▸ List.mem_map.mpr ⟨f, hf, rfl⟩)

theorem lookup_pair_prefix :
    ∀ (l₁ l₂ : List ResolvedLibrary) (k : String), k ∈ l₁.map mkEntryKey →
      ((((l₁ ++ l₂).map (fun e => (mkEntryKey e, e.paramName))).lookup k).getD "undefined")
        ∈ l₁.map (·.paramName) := by
  intro l₁
  induction l₁ with
  | nil => intro l₂ k hk; cases hk
  | cons e es ih =>
    intro l₂ k hk
    simp only [List.cons_append, List.map_cons]
    rw [List.lookup]
    by_cases he : (k == mkEntryKey e) = true
    · rw [he]
      simp
    · have he' : (k == mkEntryKey e) = false := by simpa using he
      rw [he']
      have hk' : k ∈ es.map mkEntryKey := by
        rw [List.map_cons] at hk
        rcases List.mem_cons.mp hk with hc | hc
        · exact absurd (by simp [hc]) he
        · exact hc
      exact List.mem_cons_of_mem _ (ih l₂ k hk')

theorem renameLoop_keys :
    ∀ (l : List ResolvedLibrary) (c : List String) (m : List (String × Nat)),
      (renameLoop c m l).map mkEntryKey = l.map mkEntryKey := by
  intro l
  induction l with
  | nil => intro c m; rfl
  | cons e es ih =>
    intro c m
    rw [renameLoop]
    by_cases hc : e.paramName ∈ c
    · rw [if_pos hc]
      show ((if 1 < (m.lookup e.paramName).getD 0 + 1 then
        { e with paramName := e.paramName ++ toString ((m.lookup e.paramName).getD 0 + 1) }
        else e) :: renameLoop c (assocSet m e.paramName ((m.lookup e.paramName).getD 0 + 1)) es).map
          mkEntryKey = _
      by_cases hi : 1 < (m.lookup e.paramName).getD 0 + 1
      · rw [if_pos hi]
        simp only [List.map_cons, ih]
        rfl
      · rw [if_neg hi]
        simp only [List.map_cons, ih]
    · rw [if_neg hc]
      simp only [List.map_cons, ih]

theorem renameLoop_keyTopo :
    ∀ (l : List ResolvedLibrary) (c : List String) (m : List (String × Nat))
      (ks : List String), KeyTopoFrom ks l → KeyTopoFrom ks (renameLoop c m l) := by
  intro l
  induction l with
  | nil => intro c m ks _; trivial
  | cons e es ih =>
    intro c m ks ht
    rw [renameLoop]
    by_cases hc : e.paramName ∈ c
    · rw [if_pos hc]
      show KeyTopoFrom ks ((if 1 < (m.lookup e.paramName).getD 0 + 1 then
        { e with paramName := e.paramName ++ toString ((m.lookup e.paramName).getD 0 + 1) }
        else e) :: renameLoop c (assocSet m e.paramName ((m.lookup e.paramName).getD 0 + 1)) es)
      by_cases hi : 1 < (m.lookup e.paramName).getD 0 + 1
      · rw [if_pos hi]
        exact ⟨ht.1, ih c _ _ ht.2⟩
      · rw [if_neg hi]
        exact ⟨ht.1, ih c _ _ ht.2⟩
    · rw [if_neg hc]
      exact ⟨ht.1, ih c m _ ht.2⟩

theorem disamb_aux :
    ∀ (l₂ l₁ full : List ResolvedLibrary), full = l₁ ++ l₂ →
      KeyTopoFrom (l₁.map mkEntryKey) l₂ →
      TopoFrom (l₁.map (·.paramName))
        (l₂.map (fun e =>
          let newDeps := (collectLibIds e.artifact.linkReferences).map
            (fun d => (((full.map (fun e' => (mkEntryKey e', e'.paramName))).lookup
              (mkKey d.1 d.2)).getD "undefined"))
          { e with deps := newDeps })) := by
  intro l₂
  induction l₂ with
  | nil => intro l₁ full _ _; trivial
  | cons e es ih =>
    intro l₁ full hfull ht
    refine ⟨?_, ?_⟩
    · intro nm hnm
      simp only [List.mem_map] at hnm
      obtain ⟨d, hd, rfl⟩ := hnm
      have hmem : mkKey d.1 d.2 ∈ l₁.map mkEntryKey := ht.1 d hd
      rw [hfull]
      exact lookup_pair_prefix l₁ (e :: es) (mkKey d.1 d.2) hmem
    · have hks : (l₁ ++ [e]).map mkEntryKey = l₁.map mkEntryKey ++ [mkKey e.file e.lib] := by
        simp [mkEntryKey]
      have hrec := ih (l₁ ++ [e]) full (by rw [hfull, List.append_assoc]; rfl)
        (by rw [hks]; exact ht.2)
      have hdone : (l₁ ++ [e]).map (·.paramName) =
          l₁.map (·.paramName) ++ [e.paramName] := by simp
      rw [hdone] at hrec
      exact hrec

theorem disambiguate_topo (libs : List ResolvedLibrary)
    (hnodup : (libs.map mkEntryKey).Nodup)
    (hkt : KeyTopoFrom [] libs)
    (ht : TopoFrom [] libs) :
    TopoFrom [] (disambiguate libs) := by
  by_cases hcol : (collisionsOf libs).isEmpty
  · unfold disambiguate
    rw [if_pos hcol]
    exact ht
  · unfold disambiguate
    rw [if_neg hcol]
    have hkeys := renameLoop_keys libs (collisionsOf libs) []
    have hnodup' : ((renameLoop (collisionsOf libs) [] libs).map mkEntryKey).Nodup := by
      rw [hkeys]
      exact hnodup
    have hfold := foldl_assocSet_eq_map (renameLoop (collisionsOf libs) [] libs) []
      (by simp) hnodup'
    rw [List.nil_append] at hfold
    show TopoFrom [] ((renameLoop (collisionsOf libs) [] libs).map (fun e =>
      let newDeps := (collectLibIds e.artifact.linkReferences).map
        (fun d => ((((renameLoop (collisionsOf libs) [] libs).foldl
          (fun m e => assocSet m (mkKey e.file e.lib) e.paramName) []).lookup
            (mkKey d.1 d.2)).getD "undefined"))
      { e with deps := newDeps }))
    rw [hfold]
    exact disamb_aux (renameLoop (collisionsOf libs) [] libs) [] _ rfl
      (renameLoop_keyTopo libs (collisionsOf libs) [] [] hkt)

/-- C2: whenever `resolveLibraries` returns normally, the returned sequence
is a valid leaves-first topological order — every name in an entry's `deps`
list is the `paramName` of an entry appearing strictly earlier in the
sequence. -/
theorem c2_topologicalOrder (lookup : String → ParsedArtifact) (fuel : Nat) (linkRefs : LinkRefs)
    (libs : List ResolvedLibrary)
    (h : resolveLibraries lookup fuel linkRefs = .ok libs) :
    ∀ (i : Nat) (hi : i < libs.length), ∀ nm ∈ (libs.get ⟨i, hi⟩).deps,
      nm ∈ (libs.take i).map (·.paramName) := by
  unfold resolveLibraries at h
  rw [except_bind_ok] at h
  obtain ⟨r, hr, hok⟩ := h
  obtain ⟨names, stF⟩ := r
  have hlibs : disambiguate (stF.resolved.map (·.2)) = libs := by
    injection hok
  have hinit : GoodInv lookup ⟨[], []⟩ := ⟨by simp, by simp, trivial, trivial⟩
  have hfin := plist_of_pone lookup fuel (pone_all lookup fuel)
    (collectLibIds linkRefs) ⟨[], []⟩ [] names stF hinit hr
  obtain ⟨_, _, ⟨hnodup, hcons, hkt, ht⟩, _, _⟩ := hfin
  have hnodup' : ((stF.resolved.map (·.2)).map mkEntryKey).Nodup := by
    rw [← keys_eq_entryKeys stF.resolved (fun pr hpr => (hcons pr hpr).1)]
    exact hnodup
  have htopo : TopoFrom [] (disambiguate (stF.resolved.map (·.2))) :=
    disambiguate_topo _ hnodup' hkt ht
  rw [hlibs] at htopo
  intro i hi nm hnm
  have := topoFrom_mem_take libs [] htopo i hi nm hnm
  simpa using this

/-- Witness for C2 at end-to-end scenario C (`LibA` depends on `LibB`,
resolution returns `[LibB, LibA]`): `LibA`'s dependency name `libB` names an
entry strictly earlier in the sequence. -/
theorem c2_topologicalOrder_witness :
    "libB" ∈ (wLibs.take 1).map (·.paramName) :=
  c2_topologicalOrder lkChain 10 rfChain wLibs rfl 1 (by decide) "libB" (by decide)
